import Mathlib

/-! # Verification development for the container command interpreter (`main.c`)

Shallow embedding of `prj1_20221197/20221197/main.c`: the registry of ten
slots per container type, the command processors and the helper functions
that sit between the dispatcher and the list / hash / bitmap library.

Conventions of the embedding

* a `struct list *` that is not `NULL` is the sequence of its payload nodes
  from `list_begin` to `list_end`, each node with its identity (the address of
  its `node_link`) and its `value`; a `struct list_elem *` into a list is the
  position of the node in that sequence, `list_end` being the length;
* an `int` is an integer of the 32 bit range, and `atoi` is the conversion
  `(int) strtol (..)` of the C library, so a numeral beyond `int` is read as
  the program reads it;
* a pointer that may be `NULL` is an `Option`;
* `rand ()` is an explicit stream of draws, `malloc` an explicit flag telling
  whether the requests of the command are satisfied, with the address of the
  node it returns;
* undefined behaviour of the C program (a store through a `NULL` node, a
  library call outside its contract) is the result `none` of a processor;
* `stdout` is the string of everything printed so far.
-/

namespace Cse4100

/-! ## Constants -/

/-- The number of slots of each registry array (`#define MAX_OBJECTS 10`). -/
def MAX_OBJECTS : Int := 10

/-! ## C integers and the C library -/

/-- Conversion of an integer to the 32 bit two's complement `int`. -/
def to_int (v : Int) : Int := (v + 2147483648) % 4294967296 - 2147483648

/-- Conversion of an `int` to the 64 bit `size_t`, as in `(size_t)atoi (..)` and
in the usual arithmetic conversions of a comparison of `int` with `size_t`. -/
def to_size_t (v : Int) : Nat := (v % 18446744073709551616).toNat

/-- The white space characters `atoi` skips (`isspace` in the C locale). -/
def isspace (c : Char) : Bool :=
  c = ' ' || c = '\t' || c = '\n' || c = '\x0b' || c = '\x0c' || c = '\r'

/-- The digit loop of `atoi`: the value of the leading run of decimal digits,
on top of the value `acc` read so far. -/
def atoi_digits : List Char → Int → Int
  | [], acc => acc
  | c :: cs, acc =>
    if c.isDigit then atoi_digits cs (acc * 10 + ((c.toNat : Int) - 48)) else acc

/-- The number a character sequence writes for `strtol`: white space, an
optional sign, then the leading run of digits; `0` when there is no digit. -/
def strtol_chars (s : List Char) : Int :=
  match s.dropWhile isspace with
  | '-' :: cs => - atoi_digits cs 0
  | '+' :: cs => atoi_digits cs 0
  | cs => atoi_digits cs 0

/-- The range check of `strtol`: a number beyond the 64 bit `long` is replaced
by `LONG_MAX` or `LONG_MIN`. -/
def strtol_clamp (v : Int) : Int :=
  if v > 9223372036854775807 then 9223372036854775807
  else if v < -9223372036854775808 then -9223372036854775808
  else v

/-- The C library `atoi` on a character sequence, as the C library of the
program's platform computes it: `(int) strtol (s, NULL, 10)`, the `long`
result of `strtol` converted to the 32 bit `int` (`4294967296` reads as `0`,
`3000000000` as `-1294967296`, `99999999999999999999` as `-1`). -/
def atoi_chars (s : List Char) : Int := to_int (strtol_clamp (strtol_chars s))

/-- The C library `atoi` on a token. -/
def atoi (s : String) : Int := atoi_chars s.toList

/-- The values of the C type `int`. -/
abbrev int_range (v : Int) : Prop := -2147483648 ≤ v ∧ v ≤ 2147483647

/-- The scan
`while (*obj_name && (*obj_name < '0' || *obj_name > '9')) obj_name++;`
followed by `return (*obj_name) ? atoi(obj_name) : -1;`. -/
def extract_index_from_chars : List Char → Int
  | [] => -1
  | c :: cs =>
    if c < '0' || c > '9' then extract_index_from_chars cs else atoi_chars (c :: cs)

/-- `extract_index_from_name`: the `int` that `atoi` reads at the first digit of
the name, `-1` when the name has no digit. -/
def extract_index_from_name (obj_name : String) : Int :=
  extract_index_from_chars obj_name.toList

/-! ## Lists -/

/-- `struct list_node`: the embedded `node_link`, which stands for the identity
of the node (its address; the links themselves are the position of the node
in the sequence of its list), and the payload `value`. -/
structure list_node where
  node_link : Nat
  value : Int
  deriving DecidableEq, Repr

/-- `compare_list_elements`: the less-than callback of the list commands. -/
def compare_list_elements (node_a node_b : list_node) : Bool :=
  decide (node_a.value < node_b.value)

/-- The loop of `get_nth_element`: `rest` are the nodes from `curr` to the end
of the list, `count` is the counter of the loop. -/
def get_nth_loop (index : Int) : List list_node → Nat → Int → Option Nat
  | [], _, _ => none
  | _ :: rest, curr, count =>
    if count = index then some curr else get_nth_loop index rest (curr + 1) (count + 1)

/-- `get_nth_element`: the position of the node the loop stops at, `none` for
the `NULL` returned when the loop runs to `list_end`. -/
def get_nth_element (lst : List list_node) (index : Int) : Option Nat :=
  get_nth_loop index lst 0 0

/-- `swap_list_elements` on the positions of two nodes of one list: nothing for
`node1 == node2`, otherwise the two `value` fields are exchanged (the links,
that is the order of the nodes, are not touched). A position that is no node
of the list leaves the list as it is. -/
def swap_list_elements (lst : List list_node) (node1 node2 : Nat) : List list_node :=
  if node1 = node2 then lst
  else
    match lst[node1]?, lst[node2]? with
    | some first_node, some second_node =>
      let temp_val := first_node.value
      let lst1 := lst.set node1 { first_node with value := second_node.value }
      lst1.set node2 { second_node with value := temp_val }
    | _, _ => lst

/-! ### The list library (`list.h`)

`list.c` is not among the sources; its operations are modelled from the
specification, on the sequence of the elements of a list. -/

/-- Modelled from the spec: `list_empty` of the list library (`list.c` is
missing): whether the list has no real element. -/
def list_empty {α : Type} (lst : List α) : Bool := lst.isEmpty

/-- Modelled from the spec: `list_size` of the list library (`list.c` is
missing): the count of the elements. -/
def list_size {α : Type} (lst : List α) : Nat := lst.length

/-- Modelled from the spec: `list_push_front` of the list library (`list.c` is
missing): links `elem` at the front. -/
def list_push_front {α : Type} (lst : List α) (elem : α) : List α := elem :: lst

/-- Modelled from the spec: `list_push_back` of the list library (`list.c` is
missing): links `elem` at the back. -/
def list_push_back {α : Type} (lst : List α) (elem : α) : List α := lst ++ [elem]

/-- Modelled from the spec: `list_pop_front` of the list library (`list.c` is
missing): fails on a list with no real element (`none`), otherwise unlinks and
returns the first element. -/
def list_pop_front {α : Type} : List α → Option (α × List α)
  | [] => none
  | e :: rest => some (e, rest)

/-- Modelled from the spec: `list_pop_back` of the list library (`list.c` is
missing): fails on a list with no real element (`none`), otherwise unlinks and
returns the last element. -/
def list_pop_back {α : Type} (lst : List α) : Option (α × List α) :=
  match lst.getLast? with
  | none => none
  | some e => some (e, lst.dropLast)

/-- Modelled from the spec: `list_front` of the list library (`list.c` is
missing): fails on an empty list, otherwise the first element. -/
def list_front {α : Type} (lst : List α) : Option α := lst.head?

/-- Modelled from the spec: `list_back` of the list library (`list.c` is
missing): fails on an empty list, otherwise the last element. -/
def list_back {α : Type} (lst : List α) : Option α := lst.getLast?

/-- Modelled from the spec: `list_insert` (`insert_before`) of the list library
(`list.c` is missing): links `elem` immediately before the position `before`,
which is an element of the list or its end. -/
def list_insert {α : Type} (lst : List α) (before : Nat) (elem : α) : List α :=
  lst.take before ++ elem :: lst.drop before

/-- Modelled from the spec: `list_remove` of the list library (`list.c` is
missing): unlinks the element at the position `elem`. -/
def list_remove {α : Type} (lst : List α) (elem : Nat) : List α := lst.eraseIdx elem

/-- Modelled from the spec: `list_reverse` of the list library (`list.c` is
missing): reverses the order of the elements. -/
def list_reverse {α : Type} (lst : List α) : List α := lst.reverse

/-- Modelled from the spec: `list_insert_ordered` of the list library (`list.c`
is missing): a scan from the front that inserts `elem` immediately before the
first element for which `less existing elem` is false. -/
def list_insert_ordered {α : Type} (less : α → α → Bool) : List α → α → List α
  | [], elem => [elem]
  | e :: rest, elem =>
    if less e elem then e :: list_insert_ordered less rest elem else elem :: e :: rest

/-- The scan of `list_max`: on a tie the element met last is kept. -/
def list_max_loop {α : Type} (less : α → α → Bool) : α → List α → α
  | max, [] => max
  | max, e :: rest => list_max_loop less (if less e max then max else e) rest

/-- Modelled from the spec: `list_max` of the list library (`list.c` is
missing): a linear scan that returns, on ties, the last maximal element. -/
def list_max {α : Type} (less : α → α → Bool) : List α → Option α
  | [] => none
  | e :: rest => some (list_max_loop less e rest)

/-- The scan of `list_min`: on a tie the element met first is kept. -/
def list_min_loop {α : Type} (less : α → α → Bool) : α → List α → α
  | min, [] => min
  | min, e :: rest => list_min_loop less (if less e min then e else min) rest

/-- Modelled from the spec: `list_min` of the list library (`list.c` is
missing): a linear scan that returns, on ties, the first minimal element. -/
def list_min {α : Type} (less : α → α → Bool) : List α → Option α
  | [] => none
  | e :: rest => some (list_min_loop less e rest)

/-- One step of the stable sort: `elem` goes behind every element that is not
greater than it. -/
def sort_insert {α : Type} (less : α → α → Bool) (elem : α) : List α → List α
  | [] => [elem]
  | e :: rest => if less elem e then elem :: e :: rest else e :: sort_insert less elem rest

/-- Modelled from the spec: `list_sort` of the list library (`list.c` is
missing): a comparison sort under `less` that is stable under equal keys. The
specification leaves the algorithm open; the stable insertion of the elements
from first to last is taken. -/
def list_sort {α : Type} (less : α → α → Bool) (lst : List α) : List α :=
  lst.foldl (fun sorted elem => sort_insert less elem sorted) []

/-- The pass of `list_unique` behind the kept element `elem`: the elements that
stay and the duplicates that leave, both in their order. -/
def list_unique_loop {α : Type} (less : α → α → Bool) : α → List α → List α × List α
  | _, [] => ([], [])
  | elem, next :: rest =>
    if !less elem next && !less next elem then
      ((list_unique_loop less elem rest).1, next :: (list_unique_loop less elem rest).2)
    else
      (next :: (list_unique_loop less next rest).1, (list_unique_loop less next rest).2)

/-- Modelled from the spec: `list_unique` of the list library (`list.c` is
missing): one pass that keeps the first element of each run of adjacent equal
elements; the result is the list that stays and the duplicates, in order. -/
def list_unique {α : Type} (less : α → α → Bool) : List α → List α × List α
  | [] => ([], [])
  | e :: rest => (e :: (list_unique_loop less e rest).1, (list_unique_loop less e rest).2)

/-- Modelled from the spec: `list_splice` of the list library (`list.c` is
missing) between two different lists: the half-open range `[first, last)` of
`src` moves to immediately before the position `before` of `dest`; an empty
range is a no-op. The result is the pair (destination, source). Endpoints
with `last` in front of `first` describe no range: no result. -/
def list_splice {α : Type} (dest : List α) (before : Nat) (src : List α) (first last : Nat) :
    Option (List α × List α) :=
  if first = last then some (dest, src)
  else if first < last then
    some (dest.take before ++ ((src.drop first).take (last - first) ++ dest.drop before),
          src.take first ++ src.drop last)
  else none

/-- Modelled from the spec: `list_splice` of the list library (`list.c` is
missing) inside one list: the range `[first, last)` moves to immediately before
`before`; an empty range is a no-op. A position `before` inside the moved
range, or `last` in front of `first`, has no result. -/
def list_splice_self {α : Type} (lst : List α) (before first last : Nat) : Option (List α) :=
  if first = last then some lst
  else if last < first then none
  else if before < first then
    some (lst.take before ++ ((lst.drop first).take (last - first) ++
      ((lst.drop before).take (first - before) ++ lst.drop last)))
  else if last ≤ before then
    some (lst.take first ++ ((lst.drop last).take (before - last) ++
      ((lst.drop first).take (last - first) ++ lst.drop before)))
  else none

/-! ### Helpers of `main.c` on lists -/

/-- `free_list`: pops every element (and frees it); the list ends empty. -/
def free_list : List list_node → List list_node
  | [] => []
  | _ :: rest => free_list rest

/-- `insert_element_at`: a new node with `value`, at the address `addr` that
`malloc` returns, goes before the node at `position`, or at the end when
`get_nth_element` returns `NULL`; nothing happens when `malloc` fails. -/
def insert_element_at (alloc : Bool) (addr : Nat) (lst : List list_node)
    (position value : Int) :
    List list_node :=
  if !alloc then lst
  else
    let new_node : list_node := { node_link := addr, value := value }
    let pos_elem := match get_nth_element lst position with
      | some e => e
      | none => lst.length
    list_insert lst pos_elem new_node

/-- The exchange `temp = node_array[j]; node_array[j] = node_array[k];
node_array[k] = temp;` of two entries of the array of node pointers (both
indices lie inside the array in every call). -/
def array_swap {α : Type} (node_array : List α) (j k : Nat) : List α :=
  match node_array[j]?, node_array[k]? with
  | some temp, some other => (node_array.set j other).set k temp
  | _, _ => node_array

/-- The swap loop of `randomize_list`,
`for (j = size - 1; j > 0; j--) { k = rand () % (j + 1); swap j k }`,
entered with `j + 1` for the steps still to run; `rands` are the values the
calls of `rand ()` return, in the order of the calls (`0` once used up). -/
def shuffle_loop {α : Type} : Nat → List Nat → List α → List α
  | 0, _, node_array => node_array
  | 1, _, node_array => node_array
  | j + 2, rands, node_array =>
    let k := rands.headD 0 % (j + 2)
    shuffle_loop (j + 1) rands.tail (array_swap node_array (j + 1) k)

/-- The loop `while (!list_empty (lst)) list_pop_front (lst);` of
`randomize_list`: the list with every element unlinked. -/
def pop_all {α : Type} : List α → List α
  | [] => []
  | _ :: rest => pop_all rest

/-- The loop `for (idx = 0; idx < size; idx++) list_push_back (lst, node_array[idx]);`
of `randomize_list`. -/
def push_all {α : Type} (lst : List α) (node_array : List α) : List α :=
  node_array.foldl list_push_back lst

/-- `randomize_list`: nothing on an empty list or when the array of node
pointers cannot be allocated; otherwise the nodes are copied to the array in
list order, the array is shuffled and the list is rebuilt from it. -/
def randomize_list (alloc : Bool) (rands : List Nat) (lst : List list_node) : List list_node :=
  if list_empty lst then lst
  else
    let size := list_size lst
    if !alloc then lst
    else
      let node_array := lst
      push_all (pop_all lst) (shuffle_loop size rands node_array)

/-! ## Hash tables -/

/-- `struct hash_node`: the payload of a hash table element. -/
structure hash_node where
  num_value : Int
  deriving DecidableEq, Repr

/-- `compute_hash`: the hash of an element is `hash_int` of its `num_value`;
`hash_int` belongs to the hash library and is a parameter. -/
def compute_hash (hash_int : Int → Nat) (e : hash_node) : Nat := hash_int e.num_value

/-- `compare_hash_elements`: the less-than callback of the tables. -/
def compare_hash_elements (hash_elem1 hash_elem2 : hash_node) : Bool :=
  decide (hash_elem1.num_value < hash_elem2.num_value)

/-- `square_element`: `num_value *= num_value` in `int` arithmetic (the product
wraps around to 32 bits). -/
def square_element (e : hash_node) : hash_node :=
  { e with num_value := to_int (e.num_value * e.num_value) }

/-- `cube_element`: `num_value = num_value * num_value * num_value` in `int`
arithmetic (each product wraps around to 32 bits). -/
def cube_element (e : hash_node) : hash_node :=
  { e with num_value := to_int (to_int (e.num_value * e.num_value) * e.num_value) }

/-- `print_hash_element`: the text `printf ("%d ", num_value)` writes. -/
def print_hash_element (e : hash_node) : String := toString e.num_value ++ " "

/-! ### The hash library (`hash.h`)

`hash.c` is not among the sources; the table is modelled from the
specification: an array of buckets, each the chain of the elements whose hash
falls on it, and a maintained element counter. The two callbacks of a table
are passed to each operation. -/

/-- Modelled from the spec: `struct hash` of the hash library (`hash.c` is
missing): the element counter and the bucket array. -/
structure hash where
  elem_cnt : Nat
  buckets : List (List hash_node)
  deriving DecidableEq, Repr

/-- Modelled from the spec: the equality of the hash library (`hash.c` is
missing) under the table's order predicate: neither element is less than the
other. -/
def hash_equal (less : hash_node → hash_node → Bool) (a b : hash_node) : Bool :=
  !less a b && !less b a

/-- Modelled from the spec: the bucket array of the hash library (`hash.c` is
missing) with the chain at index `i` replaced by `f` of it. -/
def bucket_modify (f : List hash_node → List hash_node) :
    List (List hash_node) → Nat → List (List hash_node)
  | [], _ => []
  | c :: cs, 0 => f c :: cs
  | c :: cs, i + 1 => c :: bucket_modify f cs i

/-- Modelled from the spec: the bucket of an element in the hash library
(`hash.c` is missing): its hash modulo the bucket count. -/
def find_bucket (hash_fn : hash_node → Nat) (h : hash) (e : hash_node) : Nat :=
  hash_fn e % h.buckets.length

/-- Modelled from the spec: `hash_init` of the hash library (`hash.c` is
missing): an initial power-of-two bucket array, all empty. The specification
leaves the initial count to the implementation; four buckets are taken. -/
def hash_init : hash := { elem_cnt := 0, buckets := List.replicate 4 [] }

/-- Modelled from the spec: `hash_find` of the hash library (`hash.c` is
missing): hashes the key, scans its bucket chain with the equality, returns
the found element or "not found". -/
def hash_find (hash_fn : hash_node → Nat) (less : hash_node → hash_node → Bool)
    (h : hash) (e : hash_node) : Option hash_node :=
  (h.buckets.getD (find_bucket hash_fn h e) []).find? (fun x => hash_equal less x e)

/-- Modelled from the spec: the step of grow-and-rehash in the hash library
(`hash.c` is missing) that links one element into the bucket its hash selects
in the new array. -/
def rehash_insert (hash_fn : hash_node → Nat) (bs : List (List hash_node)) (e : hash_node) :
    List (List hash_node) :=
  bucket_modify (fun chain => chain ++ [e]) bs (hash_fn e % bs.length)

/-- Modelled from the spec: grow-and-rehash of the hash library (`hash.c` is
missing): a new bucket array of double the size, every element visited once
and re-bucketed by its hash modulo the new size, the old array discarded. -/
def grow_and_rehash (hash_fn : hash_node → Nat) (h : hash) : hash :=
  { h with buckets :=
      h.buckets.flatten.foldl (rehash_insert hash_fn) (List.replicate (2 * h.buckets.length) []) }

/-- Modelled from the spec: `hash_insert` of the hash library (`hash.c` is
missing): when an equal element exists the insertion fails and that element is
returned; otherwise the element is linked into its bucket's chain, the count
goes up, and the table grows when the count exceeds the bucket count. -/
def hash_insert (hash_fn : hash_node → Nat) (less : hash_node → hash_node → Bool)
    (h : hash) (e : hash_node) : hash × Option hash_node :=
  match hash_find hash_fn less h e with
  | some old => (h, some old)
  | none =>
    let h1 : hash :=
      { elem_cnt := h.elem_cnt + 1,
        buckets := bucket_modify (fun chain => chain ++ [e]) h.buckets (find_bucket hash_fn h e) }
    (if h1.elem_cnt > h1.buckets.length then grow_and_rehash hash_fn h1 else h1, none)

/-- The chain with its first element equal to `e` replaced by `e`. -/
def chain_replace (less : hash_node → hash_node → Bool) (e : hash_node) :
    List hash_node → List hash_node
  | [] => []
  | x :: rest => if hash_equal less x e then e :: rest else x :: chain_replace less e rest

/-- The chain with its first element equal to `e` unlinked. -/
def chain_remove (less : hash_node → hash_node → Bool) (e : hash_node) :
    List hash_node → List hash_node
  | [] => []
  | x :: rest => if hash_equal less x e then rest else x :: chain_remove less e rest

/-- Modelled from the spec: `hash_replace` of the hash library (`hash.c` is
missing): like insert, but an equal element that exists is unlinked and
returned and the new element takes its place. -/
def hash_replace (hash_fn : hash_node → Nat) (less : hash_node → hash_node → Bool)
    (h : hash) (e : hash_node) : hash × Option hash_node :=
  match hash_find hash_fn less h e with
  | some old =>
    ({ h with buckets := bucket_modify (chain_replace less e) h.buckets (find_bucket hash_fn h e) },
      some old)
  | none => hash_insert hash_fn less h e

/-- Modelled from the spec: `hash_delete` of the hash library (`hash.c` is
missing): finds, then unlinks the matching element, if any, and returns it. -/
def hash_delete (hash_fn : hash_node → Nat) (less : hash_node → hash_node → Bool)
    (h : hash) (e : hash_node) : hash × Option hash_node :=
  match hash_find hash_fn less h e with
  | some old =>
    ({ elem_cnt := h.elem_cnt - 1,
       buckets := bucket_modify (chain_remove less e) h.buckets (find_bucket hash_fn h e) },
      some old)
  | none => (h, none)

/-- Modelled from the spec: `hash_clear` of the hash library (`hash.c` is
missing): unlinks every element and keeps the capacity of the bucket array. -/
def hash_clear (h : hash) : hash :=
  { elem_cnt := 0, buckets := h.buckets.map (fun _ => []) }

/-- Modelled from the spec: `hash_apply` of the hash library (`hash.c` is
missing) with an action that writes to the visited element: every element is
visited once. -/
def hash_apply (action : hash_node → hash_node) (h : hash) : hash :=
  { h with buckets := h.buckets.map (fun chain => chain.map action) }

/-- Modelled from the spec: the visiting order of `hash_apply` in the hash
library (`hash.c` is missing): bucket after bucket, insertion order within a
chain. -/
def hash_elements (h : hash) : List hash_node := h.buckets.flatten

/-- Modelled from the spec: `hash_size` of the hash library (`hash.c` is
missing): the maintained counter. -/
def hash_size (h : hash) : Nat := h.elem_cnt

/-- Modelled from the spec: `hash_empty` of the hash library (`hash.c` is
missing): whether the maintained counter is zero. -/
def hash_empty (h : hash) : Bool := h.elem_cnt == 0

/-! ## Bitmaps -/

/-- Modelled from the spec: `struct bitmap` of the bitmap library (`bitmap.c`
is not among the sources): the sequence of its bits, in index order. -/
abbrev bitmap := List Bool

/-- Modelled from the spec: `bitmap_create` of the bitmap library (`bitmap.c`
is missing): `bit_cnt` bits, all false; a null handle when the allocation
fails. -/
def bitmap_create (alloc : Bool) (bit_cnt : Nat) : Option bitmap :=
  if alloc then some (List.replicate bit_cnt false) else none

/-- Modelled from the spec: `bitmap_size` of the bitmap library (`bitmap.c` is
missing): the number of bits. -/
def bitmap_size (b : bitmap) : Nat := b.length

/-- Modelled from the spec: `bitmap_test` of the bitmap library (`bitmap.c` is
missing): the bit at `idx`; no bit past the last index is observably set. -/
def bitmap_test (b : bitmap) (idx : Nat) : Bool := b.getD idx false

/-- Modelled from the spec: `bitmap_set` of the bitmap library (`bitmap.c` is
missing): the bit at `idx` becomes `value`; an index past the last one is
rejected. -/
def bitmap_set (b : bitmap) (idx : Nat) (value : Bool) : bitmap := b.set idx value

/-- The copy loop of `expand_bitmap`,
`for (i = 0; i < current_size; i++) bitmap_set (new_bmp, i, bitmap_test (bmp, i));`
entered at `i` with `fuel` iterations to go. -/
def expand_copy (bmp : bitmap) : Nat → Nat → bitmap → bitmap
  | 0, _, new_bmp => new_bmp
  | fuel + 1, i, new_bmp => expand_copy bmp fuel (i + 1) (bitmap_set new_bmp i (bitmap_test bmp i))

/-- `expand_bitmap`: the same bitmap when `new_capacity <= bitmap_size (bmp)`,
a comparison made in `size_t`; otherwise a new bitmap of `new_capacity` bits
that receives the old bits, `NULL` when it cannot be created. The flag
`alloc` tells whether `bitmap_create` gets its memory. -/
def expand_bitmap (alloc : Bool) (bmp : bitmap) (new_capacity : Int) : Option bitmap :=
  if to_size_t new_capacity ≤ bitmap_size bmp then some bmp
  else
    match bitmap_create alloc (to_size_t new_capacity) with
    | none => none
    | some new_bmp =>
      let current_size := bitmap_size bmp
      some (expand_copy bmp current_size 0 new_bmp)

/-! ### The rest of the bitmap library (`bitmap.h`)

`bitmap.c` is not among the sources; the operations the bitmap commands call
are modelled from the specification, on the sequence of the bits. -/

/-- Modelled from the spec: `BITMAP_ERROR` of the bitmap library (`bitmap.h` is
missing): the out-of-range "not found" position of a scan, taken as the
largest `size_t`. -/
def BITMAP_ERROR : Nat := 18446744073709551615

/-- Modelled from the spec: the bits a range operation of the bitmap library
(`bitmap.c` is missing) looks at: the bits of `[start, start + cnt)`, the range
being truncated at the end of the bitmap. -/
def bitmap_range (b : bitmap) (start cnt : Nat) : List Bool := (b.drop start).take cnt

/-- Modelled from the spec: `bitmap_mark` of the bitmap library (`bitmap.c` is
missing): set to true. -/
def bitmap_mark (b : bitmap) (idx : Nat) : bitmap := bitmap_set b idx true

/-- Modelled from the spec: `bitmap_reset` of the bitmap library (`bitmap.c` is
missing): set to false. -/
def bitmap_reset (b : bitmap) (idx : Nat) : bitmap := bitmap_set b idx false

/-- Modelled from the spec: `bitmap_flip` of the bitmap library (`bitmap.c` is
missing): the bit at `idx` is toggled. -/
def bitmap_flip (b : bitmap) (idx : Nat) : bitmap := bitmap_set b idx (!bitmap_test b idx)

/-- Modelled from the spec: `bitmap_set_all` of the bitmap library (`bitmap.c`
is missing): every bit becomes `value`. -/
def bitmap_set_all (b : bitmap) (value : Bool) : bitmap := b.map (fun _ => value)

/-- Modelled from the spec: `bitmap_set_multiple` of the bitmap library
(`bitmap.c` is missing): every bit of the range becomes `value`. -/
def bitmap_set_multiple (b : bitmap) (start cnt : Nat) (value : Bool) : bitmap :=
  (List.range b.length).map
    (fun i => if start ≤ i ∧ i < start + cnt then value else bitmap_test b i)

/-- Modelled from the spec: `bitmap_all` of the bitmap library (`bitmap.c` is
missing): whether every bit of the range is true; true for an empty range. -/
def bitmap_all (b : bitmap) (start cnt : Nat) : Bool := (bitmap_range b start cnt).all id

/-- Modelled from the spec: `bitmap_any` of the bitmap library (`bitmap.c` is
missing): whether some bit of the range is true; false for an empty range. -/
def bitmap_any (b : bitmap) (start cnt : Nat) : Bool := (bitmap_range b start cnt).any id

/-- Modelled from the spec: `bitmap_none` of the bitmap library (`bitmap.c` is
missing): whether no bit of the range is true; true for an empty range. -/
def bitmap_none (b : bitmap) (start cnt : Nat) : Bool := !bitmap_any b start cnt

/-- Modelled from the spec: `bitmap_count` of the bitmap library (`bitmap.c` is
missing): the number of bits of the range equal to `value`. -/
def bitmap_count (b : bitmap) (start cnt : Nat) (value : Bool) : Nat :=
  (bitmap_range b start cnt).count value

/-- Modelled from the spec: `bitmap_contains` of the bitmap library (`bitmap.c`
is missing): whether at least one bit of the range equals `value`. -/
def bitmap_contains (b : bitmap) (start cnt : Nat) (value : Bool) : Bool :=
  (bitmap_range b start cnt).any (fun bit => bit == value)

/-- Modelled from the spec: `bitmap_scan` of the bitmap library (`bitmap.c` is
missing): the index of the first bit of the range equal to `value`, or the
sentinel when none matches. -/
def bitmap_scan (b : bitmap) (start cnt : Nat) (value : Bool) : Nat :=
  match (bitmap_range b start cnt).findIdx? (fun bit => bit == value) with
  | some i => start + i
  | none => BITMAP_ERROR

/-- Modelled from the spec: `bitmap_scan_and_flip` of the bitmap library
(`bitmap.c` is missing): the scan, then the found bit is flipped before its
index is returned; the sentinel and no mutation when nothing is found. -/
def bitmap_scan_and_flip (b : bitmap) (start cnt : Nat) (value : Bool) : bitmap × Nat :=
  let idx := bitmap_scan b start cnt value
  if idx = BITMAP_ERROR then (b, BITMAP_ERROR) else (bitmap_flip b idx, idx)

/-- Modelled from the spec: the text `bitmap_dump` of the bitmap library
(`bitmap.c` is missing) renders: one character `0` or `1` for each bit, in
index order. -/
def bitmap_dump (b : bitmap) : String := String.mk (b.map (fun bit => if bit then '1' else '0'))

/-! ## The registry and the command processors -/

/-- The global state of `main.c`: the three arrays `list_arr`, `hash_arr` and
`bmp_arr` (an entry is `none` for `NULL`) and the text written to `stdout`. -/
structure Registry where
  list_arr : Nat → Option (List list_node)
  hash_arr : Nat → Option hash
  bmp_arr : Nat → Option bitmap
  stdout : String

/-- What a command takes from outside the program: whether `malloc` satisfies
its requests, the values `rand ()` returns, and the address of the node
`malloc` returns when it succeeds. -/
structure Env where
  alloc : Bool
  rands : List Nat
  addr : Nat

/-- The state after the initialisation loop of `main`: every entry `NULL`,
nothing printed. -/
def init_registry : Registry :=
  { list_arr := fun _ => none, hash_arr := fun _ => none, bmp_arr := fun _ => none, stdout := "" }

/-- The array with the entry at `index` set to `v`. -/
def set_slot {α : Type} (arr : Nat → Option α) (index : Nat) (v : Option α) : Nat → Option α :=
  fun j => if j = index then v else arr j

/-- The state after `printf` of `text`. -/
def printf (st : Registry) (text : String) : Registry :=
  { st with stdout := st.stdout ++ text }

/-- The token `cmd_tokens[i]`. -/
def token (cmd_tokens : List String) (i : Nat) : String := cmd_tokens.getD i ""

/-- `init_list`: the slot of the name's index receives a new empty list, or
`NULL` when `malloc` fails; nothing for an index outside `0..9`. -/
def init_list (alloc : Bool) (st : Registry) (list_name : String) : Registry :=
  let index := extract_index_from_name list_name
  if index < 0 ∨ index ≥ MAX_OBJECTS then st
  else { st with list_arr := set_slot st.list_arr index.toNat (if alloc then some [] else none) }

/-- `init_hash_table`: the slot of the name's index receives a new initialised
table, or `NULL` when `malloc` fails; nothing for an index outside `0..9`. -/
def init_hash_table (alloc : Bool) (st : Registry) (table_name : String) : Registry :=
  let index := extract_index_from_name table_name
  if index < 0 ∨ index ≥ MAX_OBJECTS then st
  else
    { st with hash_arr := set_slot st.hash_arr index.toNat (if alloc then some hash_init else none) }

/-- `init_bitmap`: the slot of the name's index receives the result of
`bitmap_create`; nothing for an index outside `0..9`. -/
def init_bitmap (alloc : Bool) (st : Registry) (bitmap_name : String) (bit_count : Nat) :
    Registry :=
  let index := extract_index_from_name bitmap_name
  if index < 0 ∨ index ≥ MAX_OBJECTS then st
  else { st with bmp_arr := set_slot st.bmp_arr index.toNat (bitmap_create alloc bit_count) }

/-- `process_create_command`. -/
def process_create_command (alloc : Bool) (st : Registry) (cmd_tokens : List String) : Registry :=
  let token_count := cmd_tokens.length
  if token_count < 3 then st
  else if token cmd_tokens 1 = "list" then init_list alloc st (token cmd_tokens 2)
  else if token cmd_tokens 1 = "hashtable" then init_hash_table alloc st (token cmd_tokens 2)
  else if token cmd_tokens 1 = "bitmap" ∧ token_count ≥ 4 then
    let bit_count := to_size_t (atoi (token cmd_tokens 3))
    init_bitmap alloc st (token cmd_tokens 2) bit_count
  else st

/-- `process_delete_command`: the first non-`NULL` entry among the list, the
table and the bitmap at the index is destroyed and set to `NULL`. -/
def process_delete_command (st : Registry) (cmd_tokens : List String) : Registry :=
  let token_count := cmd_tokens.length
  if token_count < 2 then st
  else
    let index := extract_index_from_name (token cmd_tokens 1)
    if index < 0 ∨ index ≥ MAX_OBJECTS then st
    else if st.list_arr index.toNat ≠ none then
      { st with list_arr := set_slot st.list_arr index.toNat none }
    else if st.hash_arr index.toNat ≠ none then
      { st with hash_arr := set_slot st.hash_arr index.toNat none }
    else if st.bmp_arr index.toNat ≠ none then
      { st with bmp_arr := set_slot st.bmp_arr index.toNat none }
    else st

/-- The list loop of `process_dumpdata_command`: `out` is the text printed so
far; every value but the first is preceded by one space. -/
def dump_list_loop : List list_node → Bool → String → String
  | [], _, out => out
  | node_ptr :: rest, first_output, out =>
    dump_list_loop rest false
      ((if !first_output then out ++ " " else out) ++ toString node_ptr.value)

/-- `print_hash_table`: every element through `print_hash_element`, then a
newline. -/
def print_hash_table (out : String) (hashTbl : hash) : String :=
  (hash_elements hashTbl).foldl (fun o e => o ++ print_hash_element e) out ++ "\n"

/-- `print_bitmap_binary`: one digit for each bit, then a newline. -/
def print_bitmap_binary (out : String) (bmp : bitmap) : String :=
  (List.range (bitmap_size bmp)).foldl
    (fun o i => o ++ (if bitmap_test bmp i then "1" else "0")) out ++ "\n"

/-- `process_dumpdata_command`: prints the first non-`NULL` entry among the
list, the table and the bitmap at the index. -/
def process_dumpdata_command (st : Registry) (cmd_tokens : List String) : Registry :=
  let token_count := cmd_tokens.length
  if token_count < 2 then st
  else
    let index := extract_index_from_name (token cmd_tokens 1)
    if index < 0 ∨ index ≥ MAX_OBJECTS then st
    else
      match st.list_arr index.toNat with
      | some lst => { st with stdout := dump_list_loop lst true st.stdout ++ "\n" }
      | none =>
        match st.hash_arr index.toNat with
        | some hashTbl => { st with stdout := print_hash_table st.stdout hashTbl }
        | none =>
          match st.bmp_arr index.toNat with
          | some bmp => { st with stdout := print_bitmap_binary st.stdout bmp }
          | none => st

/-- The word `sscanf (token, "%19s", op_str)` stores: white space is skipped,
then at most 19 characters are taken up to the next white space; the buffer
starts zeroed, so a token without a word leaves the empty string. -/
def scan_word (tok : String) : String :=
  String.mk (((tok.toList.dropWhile isspace).takeWhile (fun c => !isspace c)).take 19)

/-- `process_hash_command`; `hash_int` is the hash function of the library
behind `compute_hash`. The result is `none` when the command stores through
the `NULL` of a failed `malloc`. -/
def process_hash_command (hash_int : Int → Nat) (env : Env) (st : Registry)
    (cmd_tokens : List String) : Option Registry :=
  let token_count := cmd_tokens.length
  if token_count < 2 then some st
  else
    let index := extract_index_from_name (token cmd_tokens 1)
    if index < 0 ∨ index ≥ MAX_OBJECTS then some st
    else
      match st.hash_arr index.toNat with
      | none => some st
      | some hashTbl =>
        let put := fun (t : hash) => { st with hash_arr := set_slot st.hash_arr index.toNat (some t) }
        if token cmd_tokens 0 = "hash_apply" then
          let print_all := fun (_ : Unit) =>
            printf st ((hash_elements hashTbl).foldl (fun o e => o ++ print_hash_element e) "")
          let st1 :=
            if token_count ≥ 3 then
              let op_str := scan_word (token cmd_tokens 2)
              if op_str = "square" then put (hash_apply square_element hashTbl)
              else if op_str = "triple" then put (hash_apply cube_element hashTbl)
              else print_all ()
            else print_all ()
          some (printf st1 "\n")
        else if token cmd_tokens 0 = "hash_clear" then some (put (hash_clear hashTbl))
        else if token cmd_tokens 0 = "hash_delete" ∧ token_count ≥ 3 then
          let value_to_delete := atoi (token cmd_tokens 2)
          let tmp_node : hash_node := { num_value := value_to_delete }
          some (put (hash_delete (compute_hash hash_int) compare_hash_elements hashTbl tmp_node).1)
        else if token cmd_tokens 0 = "hash_empty" then
          some (printf st ((if hash_empty hashTbl then "true" else "false") ++ "\n"))
        else if token cmd_tokens 0 = "hash_find" ∧ token_count ≥ 3 then
          let search_val := atoi (token cmd_tokens 2)
          let tmp_node : hash_node := { num_value := search_val }
          match hash_find (compute_hash hash_int) compare_hash_elements hashTbl tmp_node with
          | some found_elem => some (printf st (toString found_elem.num_value ++ "\n"))
          | none => some st
        else if token cmd_tokens 0 = "hash_insert" ∧ token_count ≥ 3 then
          let insert_val := atoi (token cmd_tokens 2)
          if !env.alloc then none
          else
            let new_node : hash_node := { num_value := insert_val }
            some (put (hash_insert (compute_hash hash_int) compare_hash_elements hashTbl new_node).1)
        else if token cmd_tokens 0 = "hash_replace" ∧ token_count ≥ 3 then
          let replace_val := atoi (token cmd_tokens 2)
          if !env.alloc then none
          else
            let new_node : hash_node := { num_value := replace_val }
            some (put (hash_replace (compute_hash hash_int) compare_hash_elements hashTbl new_node).1)
        else if token cmd_tokens 0 = "hash_size" then
          some (printf st (toString (hash_size hashTbl) ++ "\n"))
        else some st

/-- The `list_splice` branch of `process_list_command`, entered with the
destination index `index` already checked. -/
def process_list_splice (st : Registry) (cmd_tokens : List String) : Option Registry :=
  let dest_idx := extract_index_from_name (token cmd_tokens 1)
  let dest_position := atoi (token cmd_tokens 2)
  let src_idx := extract_index_from_name (token cmd_tokens 3)
  let src_start := atoi (token cmd_tokens 4)
  let src_end_exclusive := atoi (token cmd_tokens 5)
  if dest_idx < 0 ∨ dest_idx ≥ MAX_OBJECTS ∨ src_idx < 0 ∨ src_idx ≥ MAX_OBJECTS then
    some (printf st "Invalid list index.\n")
  else
    match st.list_arr dest_idx.toNat, st.list_arr src_idx.toNat with
    | some dest_list, some src_list =>
      match get_nth_element dest_list dest_position, get_nth_element src_list src_start,
          get_nth_element src_list src_end_exclusive with
      | some dest_pos_elem, some src_start_elem, some src_end_elem =>
        if dest_idx.toNat = src_idx.toNat then
          match list_splice_self dest_list dest_pos_elem src_start_elem src_end_elem with
          | some lst1 => some { st with list_arr := set_slot st.list_arr dest_idx.toNat (some lst1) }
          | none => none
        else
          match list_splice dest_list dest_pos_elem src_list src_start_elem src_end_elem with
          | some (dest1, src1) =>
            let arr1 := set_slot st.list_arr src_idx.toNat (some src1)
            some { st with list_arr := set_slot arr1 dest_idx.toNat (some dest1) }
          | none => none
      | _, _, _ => some (printf st "Invalid position.\n")
    | _, _ => some (printf st "Invalid list index.\n")

/-- The `list_unique` branch of `process_list_command`. With a second list
that is the first one, the library call has a result only when no element
leaves the list. -/
def process_list_unique (st : Registry) (cmd_tokens : List String) : Option Registry :=
  let token_count := cmd_tokens.length
  let primary_idx := extract_index_from_name (token cmd_tokens 1)
  if primary_idx < 0 ∨ primary_idx ≥ MAX_OBJECTS then some (printf st "Invalid list index.\n")
  else
    match st.list_arr primary_idx.toNat with
    | none => some (printf st "Invalid list index.\n")
    | some primary =>
      if token_count ≥ 3 then
        let secondary_idx := extract_index_from_name (token cmd_tokens 2)
        if secondary_idx < 0 ∨ secondary_idx ≥ MAX_OBJECTS then some st
        else
          match st.list_arr secondary_idx.toNat with
          | none => some st
          | some secondary =>
            let r := list_unique compare_list_elements primary
            if secondary_idx.toNat = primary_idx.toNat then
              if r.2 = [] then some st else none
            else
              let arr1 := set_slot st.list_arr secondary_idx.toNat (some (secondary ++ r.2))
              some { st with list_arr := set_slot arr1 primary_idx.toNat (some r.1) }
      else
        let kept := (list_unique compare_list_elements primary).1
        some { st with list_arr := set_slot st.list_arr primary_idx.toNat (some kept) }

/-- `process_list_command`. The result is `none` when the command stores
through the `NULL` of a failed `malloc` or calls the library where it has no
result. -/
def process_list_command (env : Env) (st : Registry) (cmd_tokens : List String) :
    Option Registry :=
  let token_count := cmd_tokens.length
  if token_count < 2 then some st
  else
    let index := extract_index_from_name (token cmd_tokens 1)
    if index < 0 ∨ index ≥ MAX_OBJECTS then some st
    else
      match st.list_arr index.toNat with
      | none => some st
      | some lst =>
        let put := fun (l : List list_node) =>
          { st with list_arr := set_slot st.list_arr index.toNat (some l) }
        if token cmd_tokens 0 = "list_front" then
          if !list_empty lst then
            match list_front lst with
            | some node_ptr => some (printf st (toString node_ptr.value ++ "\n"))
            | none => none
          else some st
        else if token cmd_tokens 0 = "list_back" then
          if !list_empty lst then
            match list_back lst with
            | some node_ptr => some (printf st (toString node_ptr.value ++ "\n"))
            | none => none
          else some st
        else if token cmd_tokens 0 = "list_pop_front" then
          if !list_empty lst then
            match list_pop_front lst with
            | some (_, rest) => some (put rest)
            | none => none
          else some st
        else if token cmd_tokens 0 = "list_pop_back" then
          if !list_empty lst then
            match list_pop_back lst with
            | some (_, rest) => some (put rest)
            | none => none
          else some st
        else if token cmd_tokens 0 = "list_push_back" ∧ token_count ≥ 3 then
          let new_value := atoi (token cmd_tokens 2)
          if !env.alloc then none
          else
            let new_node : list_node := { node_link := env.addr, value := new_value }
            some (put (list_push_back lst new_node))
        else if token cmd_tokens 0 = "list_push_front" ∧ token_count ≥ 3 then
          let new_value := atoi (token cmd_tokens 2)
          if !env.alloc then none
          else
            let new_node : list_node := { node_link := env.addr, value := new_value }
            some (put (list_push_front lst new_node))
        else if token cmd_tokens 0 = "list_insert" ∧ token_count ≥ 4 then
          let pos := atoi (token cmd_tokens 2)
          let new_value := atoi (token cmd_tokens 3)
          some (put (insert_element_at env.alloc env.addr lst pos new_value))
        else if token cmd_tokens 0 = "list_insert_ordered" ∧ token_count ≥ 3 then
          let new_value := atoi (token cmd_tokens 2)
          if !env.alloc then none
          else
            let new_node : list_node := { node_link := env.addr, value := new_value }
            some (put (list_insert_ordered compare_list_elements lst new_node))
        else if token cmd_tokens 0 = "list_empty" then
          let is_empty := list_empty lst
          some (printf st ((if is_empty then "true" else "false") ++ "\n"))
        else if token cmd_tokens 0 = "list_max" then
          if !list_empty lst then
            match list_max compare_list_elements lst with
            | some node_ptr => some (printf st (toString node_ptr.value ++ "\n"))
            | none => none
          else some st
        else if token cmd_tokens 0 = "list_min" then
          if !list_empty lst then
            match list_min compare_list_elements lst with
            | some node_ptr => some (printf st (toString node_ptr.value ++ "\n"))
            | none => none
          else some st
        else if token cmd_tokens 0 = "list_reverse" then some (put (list_reverse lst))
        else if token cmd_tokens 0 = "list_shuffle" then
          some (put (randomize_list env.alloc env.rands lst))
        else if token cmd_tokens 0 = "list_size" then
          some (printf st (toString (list_size lst) ++ "\n"))
        else if token cmd_tokens 0 = "list_sort" then
          some (put (list_sort compare_list_elements lst))
        else if token cmd_tokens 0 = "list_splice" ∧ token_count ≥ 6 then
          process_list_splice st cmd_tokens
        else if token cmd_tokens 0 = "list_swap" ∧ token_count ≥ 4 then
          let pos1 := atoi (token cmd_tokens 2)
          let pos2 := atoi (token cmd_tokens 3)
          match get_nth_element lst pos1, get_nth_element lst pos2 with
          | some elem1, some elem2 => some (put (swap_list_elements lst elem1 elem2))
          | _, _ => some st
        else if token cmd_tokens 0 = "list_remove" ∧ token_count ≥ 3 then
          let pos := atoi (token cmd_tokens 2)
          match get_nth_element lst pos with
          | some elem_to_remove => some (put (list_remove lst elem_to_remove))
          | none => some st
        else if token cmd_tokens 0 = "list_unique" then process_list_unique st cmd_tokens
        else some st

/-- A run of list commands through `process_list_command`, one after the
other, each with its own environment; `none` as soon as one has no result. -/
def run_list_commands : Registry → List (Env × List String) → Option Registry
  | st, [] => some st
  | st, (env, cmd_tokens) :: rest =>
    match process_list_command env st cmd_tokens with
    | some st1 => run_list_commands st1 rest
    | none => none

/-- A run of hash commands through `process_hash_command`, one after the
other, each with its own environment; `none` as soon as one has no result. -/
def run_hash_commands (hash_int : Int → Nat) :
    Registry → List (Env × List String) → Option Registry
  | st, [] => some st
  | st, (env, cmd_tokens) :: rest =>
    match process_hash_command hash_int env st cmd_tokens with
    | some st1 => run_hash_commands hash_int st1 rest
    | none => none

/-- The `size_t` that the conversion `%zu` makes of the number `v` written by
a run of digits after a sign: `ULONG_MAX` when the number written is beyond
`unsigned long`, otherwise the number, negated after a minus sign, in
`size_t`. -/
def strtoul_value (negative : Bool) (v : Int) : Nat :=
  if v > 18446744073709551615 then 18446744073709551615
  else to_size_t (if negative then - v else v)

/-- The value `sscanf (tok, "%zu", &x)` stores: white space, an optional sign
and a run of digits, converted to `size_t`; `none` when there is no digit to
convert and `sscanf` does not return 1. -/
def scan_size (tok : String) : Option Nat :=
  match tok.toList.dropWhile isspace with
  | '-' :: c :: cs =>
    if c.isDigit then some (strtoul_value true (atoi_digits (c :: cs) 0)) else none
  | '+' :: c :: cs =>
    if c.isDigit then some (strtoul_value false (atoi_digits (c :: cs) 0)) else none
  | c :: cs => if c.isDigit then some (strtoul_value false (atoi_digits (c :: cs) 0)) else none
  | [] => none

/-- The word `sscanf (tok, "%9s", boolStr)` stores: white space is skipped, then
at most 9 characters are taken up to the next white space; `none` when the
token has no word and `sscanf` does not return 1. -/
def scan_bool_word (tok : String) : Option String :=
  match ((tok.toList.dropWhile isspace).takeWhile (fun c => !isspace c)).take 9 with
  | [] => none
  | w => some (String.mk w)

/-- The argument block the `bitmap_contains`, `bitmap_scan` and
`bitmap_scan_and_flip` branches share: the three `sscanf` calls and the
comparison of the word with `true` and `false`. The result is the text of the
error message, or the start, the count and the value. -/
def scan_range_args (cmd_tokens : List String) : Except String (Nat × Nat × Bool) :=
  match scan_size (token cmd_tokens 2), scan_size (token cmd_tokens 3),
      scan_bool_word (token cmd_tokens 4) with
  | some start_idx, some count_val, some boolStr =>
    if boolStr = "true" then .ok (start_idx, count_val, true)
    else if boolStr = "false" then .ok (start_idx, count_val, false)
    else .error "Invalid value. Please enter \x27true\x27 or \x27false\x27.\n"
  | _, _, _ => .error "Invalid command format.\n"

/-- The text of `printf ("%s\n", flag ? "true" : "false")`. -/
def bool_line (flag : Bool) : String := (if flag then "true" else "false") ++ "\n"

/-- `process_bitmap_command`. The flag `env.alloc` tells whether the
`bitmap_create` inside `expand_bitmap` gets its memory. -/
def process_bitmap_command (env : Env) (st : Registry) (cmd_tokens : List String) :
    Option Registry :=
  let token_count := cmd_tokens.length
  if token_count < 2 then some st
  else
    let index := extract_index_from_name (token cmd_tokens 1)
    if index < 0 ∨ index ≥ MAX_OBJECTS then some st
    else
      match st.bmp_arr index.toNat with
      | none => some st
      | some bmp =>
        let put := fun (b : Option bitmap) =>
          { st with bmp_arr := set_slot st.bmp_arr index.toNat b }
        if token cmd_tokens 0 = "bitmap_all" ∧ token_count ≥ 4 then
          let start_idx := to_size_t (atoi (token cmd_tokens 2))
          let count_val := to_size_t (atoi (token cmd_tokens 3))
          some (printf st (bool_line (bitmap_all bmp start_idx count_val)))
        else if token cmd_tokens 0 = "bitmap_any" ∧ token_count ≥ 4 then
          let start_idx := to_size_t (atoi (token cmd_tokens 2))
          let count_val := to_size_t (atoi (token cmd_tokens 3))
          some (printf st (bool_line (bitmap_any bmp start_idx count_val)))
        else if token cmd_tokens 0 = "bitmap_contains" ∧ token_count ≥ 5 then
          match scan_range_args cmd_tokens with
          | .error message => some (printf st message)
          | .ok (start_idx, count_val, bool_val) =>
            some (printf st (bool_line (bitmap_contains bmp start_idx count_val bool_val)))
        else if token cmd_tokens 0 = "bitmap_count" ∧ token_count ≥ 5 then
          let start_idx := to_size_t (atoi (token cmd_tokens 2))
          let count_val := to_size_t (atoi (token cmd_tokens 3))
          let bool_val := decide (token cmd_tokens 4 = "true")
          some (printf st (toString (bitmap_count bmp start_idx count_val bool_val) ++ "\n"))
        else if token cmd_tokens 0 = "bitmap_dump" then some (printf st (bitmap_dump bmp))
        else if token cmd_tokens 0 = "bitmap_expand" ∧ token_count ≥ 3 then
          let additional := atoi (token cmd_tokens 2)
          let new_capacity := to_int (to_int (bitmap_size bmp) + additional)
          let new_bmp := expand_bitmap env.alloc bmp new_capacity
          some (put new_bmp)
        else if token cmd_tokens 0 = "bitmap_flip" ∧ token_count ≥ 3 then
          let bit_index := to_size_t (atoi (token cmd_tokens 2))
          some (put (some (bitmap_flip bmp bit_index)))
        else if token cmd_tokens 0 = "bitmap_mark" ∧ token_count ≥ 3 then
          let bit_index := to_size_t (atoi (token cmd_tokens 2))
          some (put (some (bitmap_mark bmp bit_index)))
        else if token cmd_tokens 0 = "bitmap_none" ∧ token_count ≥ 4 then
          let start_idx := to_size_t (atoi (token cmd_tokens 2))
          let count_val := to_size_t (atoi (token cmd_tokens 3))
          some (printf st (bool_line (bitmap_none bmp start_idx count_val)))
        else if token cmd_tokens 0 = "bitmap_reset" ∧ token_count ≥ 3 then
          let bit_index := to_size_t (atoi (token cmd_tokens 2))
          some (put (some (bitmap_reset bmp bit_index)))
        else if token cmd_tokens 0 = "bitmap_scan" ∧ token_count ≥ 5 then
          match scan_range_args cmd_tokens with
          | .error message => some (printf st message)
          | .ok (start_idx, count_val, bool_val) =>
            let index_found := bitmap_scan bmp start_idx count_val bool_val
            if index_found = BITMAP_ERROR then some (printf st (toString BITMAP_ERROR ++ "\n"))
            else some (printf st (toString index_found ++ "\n"))
        else if token cmd_tokens 0 = "bitmap_scan_and_flip" ∧ token_count ≥ 5 then
          match scan_range_args cmd_tokens with
          | .error message => some (printf st message)
          | .ok (start_idx, count_val, bool_val) =>
            let found := bitmap_scan_and_flip bmp start_idx count_val bool_val
            let index_found := found.2
            let st1 := put (some found.1)
            if index_found = BITMAP_ERROR then some (printf st1 (toString BITMAP_ERROR ++ "\n"))
            else some (printf st1 (toString index_found ++ "\n"))
        else if token cmd_tokens 0 = "bitmap_set" ∧ token_count ≥ 4 then
          let bit_index := to_size_t (atoi (token cmd_tokens 2))
          let bool_val := decide (token cmd_tokens 3 = "true")
          some (put (some (bitmap_set bmp bit_index bool_val)))
        else if token cmd_tokens 0 = "bitmap_set_all" ∧ token_count ≥ 3 then
          let bool_val := decide (token cmd_tokens 2 = "true")
          some (put (some (bitmap_set_all bmp bool_val)))
        else if token cmd_tokens 0 = "bitmap_set_multiple" ∧ token_count ≥ 5 then
          let start_idx := to_size_t (atoi (token cmd_tokens 2))
          let count_val := to_size_t (atoi (token cmd_tokens 3))
          let bool_val := decide (token cmd_tokens 4 = "true")
          some (put (some (bitmap_set_multiple bmp start_idx count_val bool_val)))
        else if token cmd_tokens 0 = "bitmap_size" then
          some (printf st (toString (bitmap_size bmp) ++ "\n"))
        else if token cmd_tokens 0 = "bitmap_test" ∧ token_count ≥ 3 then
          let bit_index := to_size_t (atoi (token cmd_tokens 2))
          some (printf st (bool_line (bitmap_test bmp bit_index)))
        else some st

/-! ## Notions the statements use -/

/-- The states reachable from the empty registry by a sequence of create and
delete commands. -/
inductive create_delete_reachable : Registry → Prop
  | init : create_delete_reachable init_registry
  | create (alloc : Bool) (st : Registry) (cmd_tokens : List String) :
      create_delete_reachable st →
      create_delete_reachable (process_create_command alloc st cmd_tokens)
  | delete (st : Registry) (cmd_tokens : List String) :
      create_delete_reachable st →
      create_delete_reachable (process_delete_command st cmd_tokens)

/-- Slot exclusivity at the index `i`: at most one of `list_arr[i]`,
`hash_arr[i]`, `bmp_arr[i]` is not `NULL`. -/
def slot_exclusive (st : Registry) (i : Nat) : Prop :=
  ¬ (st.list_arr i ≠ none ∧ st.hash_arr i ≠ none) ∧
  ¬ (st.list_arr i ≠ none ∧ st.bmp_arr i ≠ none) ∧
  ¬ (st.hash_arr i ≠ none ∧ st.bmp_arr i ≠ none)

/-- The index a create command names holds no container of a type other than
the one the command creates. -/
def create_target_free (st : Registry) (cmd_tokens : List String) : Prop :=
  (token cmd_tokens 1 = "list" →
    st.hash_arr (extract_index_from_name (token cmd_tokens 2)).toNat = none ∧
    st.bmp_arr (extract_index_from_name (token cmd_tokens 2)).toNat = none) ∧
  (token cmd_tokens 1 = "hashtable" →
    st.list_arr (extract_index_from_name (token cmd_tokens 2)).toNat = none ∧
    st.bmp_arr (extract_index_from_name (token cmd_tokens 2)).toNat = none) ∧
  (token cmd_tokens 1 = "bitmap" →
    st.list_arr (extract_index_from_name (token cmd_tokens 2)).toNat = none ∧
    st.hash_arr (extract_index_from_name (token cmd_tokens 2)).toNat = none)

/-- The states reachable from the empty registry by delete commands and by
create commands that name an index free of the other two container types. -/
inductive free_create_reachable : Registry → Prop
  | init : free_create_reachable init_registry
  | create (alloc : Bool) (st : Registry) (cmd_tokens : List String) :
      free_create_reachable st → create_target_free st cmd_tokens →
      free_create_reachable (process_create_command alloc st cmd_tokens)
  | delete (st : Registry) (cmd_tokens : List String) :
      free_create_reachable st →
      free_create_reachable (process_delete_command st cmd_tokens)

/-- The commands of the list ordering property, each with its integer
arguments. -/
inductive list_op where
  | push_front (v : Int)
  | push_back (v : Int)
  | insert (pos v : Int)
  | remove (pos : Int)
  | pop_front
  | pop_back

/-- The tokens of a command of the list ordering property on the list `name`,
the integers written in decimal. -/
def list_op_tokens (name : String) : list_op → List String
  | .push_front v => ["list_push_front", name, toString v]
  | .push_back v => ["list_push_back", name, toString v]
  | .insert pos v => ["list_insert", name, toString pos, toString v]
  | .remove pos => ["list_remove", name, toString pos]
  | .pop_front => ["list_pop_front", name]
  | .pop_back => ["list_pop_back", name]

/-- The reference model of the list ordering property, on the sequence of the
values: push_front prepends, push_back appends, insert places the value
immediately before the element at index `pos` and appends it when `pos` is no
valid index, remove deletes the element at index `pos` and changes nothing
when `pos` is no valid index, pop_front and pop_back drop the first and the
last element and change nothing on an empty sequence. -/
def reference_step (seq : List Int) : list_op → List Int
  | .push_front v => v :: seq
  | .push_back v => seq ++ [v]
  | .insert pos v =>
    if 0 ≤ pos ∧ pos < seq.length then seq.take pos.toNat ++ v :: seq.drop pos.toNat
    else seq ++ [v]
  | .remove pos =>
    if 0 ≤ pos ∧ pos < seq.length then seq.eraseIdx pos.toNat else seq
  | .pop_front => seq.tail
  | .pop_back => seq.dropLast

/-- The reference model after a sequence of commands. -/
def reference_run (seq : List Int) (ops : List list_op) : List Int :=
  ops.foldl reference_step seq

/-- The values of the nodes of a list, in list order. -/
def list_values (lst : List list_node) : List Int := lst.map (fun node => node.value)

/-- Whether the integer arguments of a command of the list ordering property
are values of the C type `int`. -/
def list_op_in_range : list_op → Bool
  | .push_front v => decide (int_range v)
  | .push_back v => decide (int_range v)
  | .insert pos v => decide (int_range pos) && decide (int_range v)
  | .remove pos => decide (int_range pos)
  | .pop_front => true
  | .pop_back => true

/-- The nodes of a list by identity, in list order. -/
def list_nodes (lst : List list_node) : List Nat := lst.map (fun node => node.node_link)

/-- The text of a sequence of integers as the dump of a list is specified:
decimal numerals separated by single spaces, no trailing space, one newline
at the end. -/
def render_values (seq : List Int) : String :=
  " ".intercalate (seq.map (fun v => toString v)) ++ "\n"

/-- A registry for the worked examples: the list `1 2 3` in slot 0 and the
list `4 5 6` in slot 1 of `list_arr`, everything else empty. -/
def example_registry : Registry :=
  { init_registry with
    list_arr := set_slot (set_slot init_registry.list_arr 0 (some [⟨10, 1⟩, ⟨11, 2⟩, ⟨12, 3⟩])) 1
      (some [⟨20, 4⟩, ⟨21, 5⟩, ⟨22, 6⟩]) }

/-- The draw sequences of the shuffle of `n` elements: one draw `k_j` for each
step `j = n - 1, ..., 1`, in this order, with `0 <= k_j <= j`. -/
def draws_in_range : Nat → List Nat → Bool
  | 0, ks => ks.isEmpty
  | 1, ks => ks.isEmpty
  | _ + 2, [] => false
  | j + 2, k :: ks => decide (k ≤ j + 1) && draws_in_range (j + 1) ks

/-- The commands of the hash uniqueness property, each with its integer
argument. -/
inductive hash_op where
  | insert (v : Int)
  | replace (v : Int)
  | delete (v : Int)
  | clear
  | apply_square
  | apply_triple

/-- The tokens of a command of the hash uniqueness property on the table
`name`, the integer written in decimal. -/
def hash_op_tokens (name : String) : hash_op → List String
  | .insert v => ["hash_insert", name, toString v]
  | .replace v => ["hash_replace", name, toString v]
  | .delete v => ["hash_delete", name, toString v]
  | .clear => ["hash_clear", name]
  | .apply_square => ["hash_apply", name, "square"]
  | .apply_triple => ["hash_apply", name, "triple"]

/-- Whether a command is a `hash_apply` that rewrites the elements. -/
def hash_op_is_apply : hash_op → Bool
  | .apply_square => true
  | .apply_triple => true
  | _ => false

/-- Hash uniqueness: no two elements of the table compare equal, that is, no
two elements carry the same `num_value`. -/
def hash_unique (t : hash) : Prop :=
  ((hash_elements t).map (fun e => e.num_value)).Nodup

/-- Every element of a bucket array sits in the bucket its hash selects. -/
def well_bucketed (hash_fn : hash_node → Nat) (bs : List (List hash_node)) : Prop :=
  ∀ j x, x ∈ bs.getD j [] → hash_fn x % bs.length = j

/-- The invariant of a table behind hash uniqueness: the bucket array is not
empty, every element sits in the bucket of its hash, and no element occurs
twice. -/
def table_inv (hash_fn : hash_node → Nat) (t : hash) : Prop :=
  0 < t.buckets.length ∧ well_bucketed hash_fn t.buckets ∧ (hash_elements t).Nodup

/-- The table a command of the hash uniqueness property leaves, as the
branches of `process_hash_command` compute it from the table `t`; the element
of a command holds the `int` that `atoi` reads from the decimal text of the
argument. -/
def hash_op_table (hash_int : Int → Nat) (t : hash) : hash_op → hash
  | .insert v =>
    (hash_insert (compute_hash hash_int) compare_hash_elements t
      { num_value := atoi (toString v) }).1
  | .replace v =>
    (hash_replace (compute_hash hash_int) compare_hash_elements t
      { num_value := atoi (toString v) }).1
  | .delete v =>
    (hash_delete (compute_hash hash_int) compare_hash_elements t
      { num_value := atoi (toString v) }).1
  | .clear => hash_clear t
  | .apply_square => hash_apply square_element t
  | .apply_triple => hash_apply cube_element t

/-- A registry for the worked examples on bitmaps: the three bits `101` in slot
0 of `bmp_arr`, everything else empty. -/
def example_bitmap_registry : Registry :=
  { init_registry with bmp_arr := set_slot init_registry.bmp_arr 0 (some [true, false, true]) }

/-- The number a run of decimal digits writes. -/
def digits_value (digits : List Char) : Int :=
  digits.foldl (fun acc c => acc * 10 + ((c.toNat : Int) - 48)) 0

/-- The numeric suffix of a name: the maximal run of decimal digits at its
end. -/
def numeric_suffix (name : String) : List Char :=
  (name.toList.reverse.takeWhile Char.isDigit).reverse

/-- The first run of digits of a name: the maximal run of decimal digits that
starts at the first digit of the name. -/
def first_digit_run (name : String) : List Char :=
  (name.toList.dropWhile (fun c => !c.isDigit)).takeWhile Char.isDigit

/-- Whether a name contains a decimal digit. -/
def has_digit (name : String) : Bool := name.toList.any Char.isDigit

/-- A name that selects no slot: it contains no digit, or the index extracted
from it lies outside `0..9`. -/
def bad_slot_name (name : String) : Prop :=
  has_digit name = false ∨ extract_index_from_name name < 0 ∨
    extract_index_from_name name ≥ MAX_OBJECTS

/-! # Theorems -/

theorem digitChar_decimal (d : Nat) (hd : d < 10) :
    (Nat.digitChar d).isDigit = true ∧ ((Nat.digitChar d).toNat : Int) - 48 = d ∧
      isspace (Nat.digitChar d) = false ∧ Nat.digitChar d ≠ '-' ∧ Nat.digitChar d ≠ '+' := by
  interval_cases d <;> decide

theorem atoi_digits_toDigitsCore : ∀ (fuel n : Nat) (ds : List Char), n < fuel →
    atoi_digits (Nat.toDigitsCore 10 fuel n ds) 0 = atoi_digits ds n
  | 0, _, _, h => by omega
  | fuel + 1, n, ds, h => by
    obtain ⟨h1, h2, -⟩ := digitChar_decimal (n % 10) (Nat.mod_lt _ (by omega))
    simp only [Nat.toDigitsCore]
    split_ifs with h0
    · have hn : n % 10 = n := Nat.mod_eq_of_lt (by omega)
      rw [hn] at h1 h2 ⊢
      simp only [atoi_digits, h1, if_true, h2]
      simp
    · rw [atoi_digits_toDigitsCore fuel (n / 10) _ (by omega)]
      simp only [atoi_digits, h1, if_true, h2]
      congr 1
      have := Nat.div_add_mod n 10
      push_cast
      omega

theorem toDigitsCore_head : ∀ (fuel n : Nat) (ds : List Char), n < fuel →
    ∃ c rest, Nat.toDigitsCore 10 fuel n ds = c :: rest ∧ isspace c = false ∧ c ≠ '-' ∧ c ≠ '+'
  | 0, _, _, h => by omega
  | fuel + 1, n, ds, h => by
    obtain ⟨-, -, h3, h4, h5⟩ := digitChar_decimal (n % 10) (Nat.mod_lt _ (by omega))
    simp only [Nat.toDigitsCore]
    split_ifs with h0
    · exact ⟨_, _, rfl, h3, h4, h5⟩
    · exact toDigitsCore_head fuel (n / 10) _ (by omega)

theorem strtol_chars_toDigits (m : Nat) : strtol_chars (Nat.toDigits 10 m) = m := by
  obtain ⟨c, rest, hc, h1, h2, h3⟩ := toDigitsCore_head (m + 1) m [] (by omega)
  have hv := atoi_digits_toDigitsCore (m + 1) m [] (by omega)
  unfold Nat.toDigits
  rw [hc] at hv ⊢
  unfold strtol_chars
  simp only [List.dropWhile_cons, h1]
  split
  · rename_i heq
    simp at heq
    exact absurd heq.1 h2
  · rename_i heq
    simp at heq
    exact absurd heq.1 h3
  · simpa [atoi_digits] using hv

/-- `strtol` reads the decimal numeral of every integer as the number it
writes. -/
theorem strtol_chars_toString (v : Int) : strtol_chars (toString v).toList = v := by
  cases v with
  | ofNat m =>
    show strtol_chars (Nat.repr m).toList = _
    simp only [Nat.repr, String.toList, List.asString]
    exact strtol_chars_toDigits m
  | negSucc m =>
    show strtol_chars ("-" ++ Nat.repr (m + 1)).toList = _
    have : ("-" ++ Nat.repr (m + 1)).toList = '-' :: Nat.toDigits 10 (m + 1) := by
      simp [Nat.repr, String.toList, List.asString]
    rw [this]
    obtain ⟨c, rest, hc, h1, h2, h3⟩ := toDigitsCore_head (m + 1 + 1) (m + 1) [] (by omega)
    have hv := atoi_digits_toDigitsCore (m + 1 + 1) (m + 1) [] (by omega)
    unfold strtol_chars
    have hs : isspace '-' = false := by decide
    simp only [List.dropWhile_cons, hs, Bool.false_eq_true, if_false]
    unfold Nat.toDigits
    rw [hv]
    simp only [atoi_digits, Int.negSucc_eq]
    push_cast
    omega

theorem to_int_strtol_clamp (v : Int) (h : int_range v) : to_int (strtol_clamp v) = v := by
  obtain ⟨h1, h2⟩ := h
  have hc : strtol_clamp v = v := by
    unfold strtol_clamp
    rw [if_neg (by omega), if_neg (by omega)]
  rw [hc]
  unfold to_int
  omega

/-- `atoi` reads the decimal numeral of an integer as the `int` the number it
writes converts to. -/
theorem atoi_toString (v : Int) : atoi (toString v) = to_int (strtol_clamp v) := by
  unfold atoi atoi_chars
  rw [strtol_chars_toString]

/-- `atoi` reads back the decimal numeral of every `int`. -/
theorem atoi_toString_int (v : Int) (h : int_range v) : atoi (toString v) = v := by
  rw [atoi_toString, to_int_strtol_clamp v h]

theorem get_nth_loop_eq (index : Int) (rest : List list_node) (curr : Nat) (count : Int) :
    get_nth_loop index rest curr count =
      if count ≤ index ∧ index < count + rest.length then some (curr + (index - count).toNat)
      else none := by
  induction rest generalizing curr count with
  | nil =>
    simp only [get_nth_loop, List.length_nil, Nat.cast_zero, add_zero]
    rw [if_neg]; omega
  | cons a rest ih =>
    simp only [get_nth_loop, List.length_cons, Nat.cast_succ]
    by_cases h : count = index
    · subst h
      simp
    · rw [if_neg h, ih]
      by_cases h2 : count + 1 ≤ index ∧ index < count + 1 + rest.length
      · rw [if_pos h2, if_pos (by omega)]
        congr 1
        omega
      · rw [if_neg h2, if_neg (by omega)]

theorem get_nth_element_eq (lst : List list_node) (index : Int) :
    get_nth_element lst index =
      if 0 ≤ index ∧ index < lst.length then some index.toNat else none := by
  unfold get_nth_element
  rw [get_nth_loop_eq]
  simp

/-- C3. `get_nth_element` is a 0-indexed lookup: for a list of size `n` it
returns the node at position `index` when `0 <= index < n` (a node of the
list), and the not-found value `NULL` when `index >= n` and also when `index`
is negative. -/
theorem get_nth_element_lookup (lst : List list_node) (index : Int) :
    (0 ≤ index ∧ index < lst.length →
      get_nth_element lst index = some index.toNat ∧ index.toNat < lst.length) ∧
    (index ≥ lst.length → get_nth_element lst index = none) ∧
    (index < 0 → get_nth_element lst index = none) := by
  rw [get_nth_element_eq]
  refine ⟨fun h => ⟨if_pos h, by omega⟩, fun h => if_neg (by omega), fun h => if_neg (by omega)⟩

theorem set_slot_same {α : Type} (arr : Nat → Option α) (i : Nat) (v : Option α) :
    set_slot arr i v i = v := by
  simp [set_slot]

theorem set_slot_other {α : Type} (arr : Nat → Option α) (i j : Nat) (v : Option α)
    (h : j ≠ i) : set_slot arr i v j = arr j := by
  simp [set_slot, h]

theorem slot_exclusive_delete (st : Registry) (cmd_tokens : List String)
    (h : ∀ i, slot_exclusive st i) (i : Nat) :
    slot_exclusive (process_delete_command st cmd_tokens) i := by
  have hi := h i
  unfold slot_exclusive at hi ⊢
  unfold process_delete_command
  simp only []
  split_ifs <;> (try simp only [set_slot]) <;> (try exact hi) <;> split_ifs <;> simp_all

theorem slot_exclusive_create (alloc : Bool) (st : Registry) (cmd_tokens : List String)
    (h : ∀ i, slot_exclusive st i) (hfree : create_target_free st cmd_tokens) (i : Nat) :
    slot_exclusive (process_create_command alloc st cmd_tokens) i := by
  have hi := h i
  obtain ⟨hl, hh, hb⟩ := hfree
  unfold slot_exclusive at hi ⊢
  unfold process_create_command init_list init_hash_table init_bitmap
  simp only []
  by_cases hj : i = (extract_index_from_name (token cmd_tokens 2)).toNat
  · subst hj
    split_ifs <;> (try simp only [set_slot]) <;> (try exact hi) <;> simp_all
  · split_ifs <;> (try simp only [set_slot, if_neg hj]) <;> exact hi

/-- C1 (counterexample). After `create list list0` and `create hashtable hash0`
the entries `list_arr[0]` and `hash_arr[0]` are both non-empty: slot
exclusivity fails in a state reachable by two create commands. -/
theorem slot_exclusivity_fails :
    create_delete_reachable
        (process_create_command true
          (process_create_command true init_registry ["create", "list", "list0"])
          ["create", "hashtable", "hash0"]) ∧
      ¬ slot_exclusive
        (process_create_command true
          (process_create_command true init_registry ["create", "list", "list0"])
          ["create", "hashtable", "hash0"]) 0 := by
  refine ⟨.create _ _ _ (.create _ _ _ .init), ?_⟩
  unfold slot_exclusive
  decide

/-- C1 (amended). In every state reachable from the empty registry by delete
commands and by create commands whose index holds no container of another
type, at most one of `list_arr[i]`, `hash_arr[i]`, `bmp_arr[i]` is non-empty,
for every index `i`. -/
theorem slot_exclusive_of_free_create (st : Registry) (h : free_create_reachable st)
    (i : Nat) : slot_exclusive st i := by
  induction h generalizing i with
  | init => simp [slot_exclusive, init_registry]
  | create alloc st cmd_tokens _ hfree ih => exact slot_exclusive_create alloc st cmd_tokens ih hfree i
  | delete st cmd_tokens _ ih => exact slot_exclusive_delete st cmd_tokens ih i

/-- C1 (witness). The state after `create list list0`, `create hashtable hash1`
and `delete list0` is reached by free creates and is exclusive at index 1. -/
theorem slot_exclusive_of_free_create_witness :
    free_create_reachable
        (process_delete_command
          (process_create_command true
            (process_create_command true init_registry ["create", "list", "list0"])
            ["create", "hashtable", "hash1"])
          ["delete", "list0"]) ∧
      slot_exclusive
        (process_delete_command
          (process_create_command true
            (process_create_command true init_registry ["create", "list", "list0"])
            ["create", "hashtable", "hash1"])
          ["delete", "list0"]) 1 :=
  have h : free_create_reachable
      (process_delete_command
        (process_create_command true
          (process_create_command true init_registry ["create", "list", "list0"])
          ["create", "hashtable", "hash1"])
        ["delete", "list0"]) :=
    .delete _ _ (.create _ _ _ (.create _ _ _ .init (by unfold create_target_free; decide))
      (by unfold create_target_free; decide))
  ⟨h, slot_exclusive_of_free_create _ h 1⟩

theorem dump_list_loop_go (rest : List list_node) (out acc : String) :
    dump_list_loop rest false (out ++ acc) =
      out ++ String.intercalate.go acc " " ((list_values rest).map (fun v => toString v)) := by
  induction rest generalizing acc with
  | nil => simp [dump_list_loop, list_values, String.intercalate.go]
  | cons a rest ih =>
    simp only [dump_list_loop, list_values, List.map_cons, String.intercalate.go, Bool.not_false,
      if_true]
    rw [String.append_assoc, String.append_assoc, ih, ← String.append_assoc acc]
    rfl

theorem dump_list_loop_eq (lst : List list_node) (out : String) :
    dump_list_loop lst true out ++ "\n" = out ++ render_values (list_values lst) := by
  cases lst with
  | nil => simp [dump_list_loop, render_values, list_values, String.intercalate]
  | cons a rest =>
    simp only [dump_list_loop, render_values, list_values, List.map_cons, String.intercalate]
    have := dump_list_loop_go rest out (toString a.value)
    simp only [list_values] at this
    simp [this, String.append_assoc]

theorem dumpdata_list (st : Registry) (name : String) (lst : List list_node)
    (hidx : 0 ≤ extract_index_from_name name ∧ extract_index_from_name name < MAX_OBJECTS)
    (hlst : st.list_arr (extract_index_from_name name).toNat = some lst) :
    (process_dumpdata_command st ["dumpdata", name]).stdout =
      st.stdout ++ render_values (list_values lst) := by
  unfold process_dumpdata_command
  have h1 : ¬ (extract_index_from_name name < 0 ∨ extract_index_from_name name ≥ MAX_OBJECTS) := by
    omega
  simp [token, h1, hlst, dump_list_loop_eq]

theorem list_values_take (lst : List list_node) (n : Nat) :
    list_values (lst.take n) = (list_values lst).take n := by
  simp [list_values, List.map_take]

theorem list_values_drop (lst : List list_node) (n : Nat) :
    list_values (lst.drop n) = (list_values lst).drop n := by
  simp [list_values, List.map_drop]

theorem list_values_length (lst : List list_node) : (list_values lst).length = lst.length := by
  simp [list_values]

theorem list_values_eraseIdx (lst : List list_node) (n : Nat) :
    list_values (lst.eraseIdx n) = (list_values lst).eraseIdx n := by
  induction lst generalizing n with
  | nil => simp [list_values]
  | cons a rest ih =>
    cases n with
    | zero => simp [list_values]
    | succ n =>
      have := ih n
      simp only [list_values] at this ⊢
      simp [this]

/-- One command of the list ordering property moves the list of the slot as the
reference model moves its sequence, and prints nothing. -/
theorem list_op_step (env : Env) (henv : env.alloc = true) (name : String) (st : Registry)
    (lst : List list_node) (op : list_op) (hop : list_op_in_range op = true)
    (hidx : 0 ≤ extract_index_from_name name ∧ extract_index_from_name name < MAX_OBJECTS)
    (hlst : st.list_arr (extract_index_from_name name).toNat = some lst) :
    ∃ st1 lst1, process_list_command env st (list_op_tokens name op) = some st1 ∧
      st1.stdout = st.stdout ∧
      st1.list_arr (extract_index_from_name name).toNat = some lst1 ∧
      list_values lst1 = reference_step (list_values lst) op := by
  have h1 : ¬ (extract_index_from_name name < 0 ∨ extract_index_from_name name ≥ MAX_OBJECTS) := by
    omega
  let put : List list_node → Registry := fun l =>
    { st with list_arr := set_slot st.list_arr (extract_index_from_name name).toNat (some l) }
  cases op with
  | push_front v =>
    have hv : atoi (toString v) = v :=
      atoi_toString_int v (by simpa [list_op_in_range] using hop)
    refine ⟨put (list_push_front lst ⟨env.addr, v⟩), list_push_front lst ⟨env.addr, v⟩,
      ?_, ?_, ?_, ?_⟩
    · simp [process_list_command, list_op_tokens, token, h1, hlst, henv, hv]
    · rfl
    · simp [set_slot]
    · simp [list_values, list_push_front, reference_step]
  | push_back v =>
    have hv : atoi (toString v) = v :=
      atoi_toString_int v (by simpa [list_op_in_range] using hop)
    refine ⟨put (list_push_back lst ⟨env.addr, v⟩), list_push_back lst ⟨env.addr, v⟩,
      ?_, ?_, ?_, ?_⟩
    · simp [process_list_command, list_op_tokens, token, h1, hlst, henv, hv]
    · rfl
    · simp [set_slot]
    · simp [list_values, list_push_back, reference_step]
  | insert pos v =>
    have hr : int_range pos ∧ int_range v := by simpa [list_op_in_range] using hop
    have hpos : atoi (toString pos) = pos := atoi_toString_int pos hr.1
    have hv : atoi (toString v) = v := atoi_toString_int v hr.2
    refine ⟨put (insert_element_at true env.addr lst pos v),
      insert_element_at true env.addr lst pos v, ?_, ?_, ?_, ?_⟩
    · simp [process_list_command, list_op_tokens, token, h1, hlst, henv, hpos, hv]
    · rfl
    · simp [set_slot]
    · simp only [insert_element_at, get_nth_element_eq, reference_step, list_values_length]
      by_cases hp : 0 ≤ pos ∧ pos < lst.length
      · simp [hp, list_insert, list_values]
      · simp [hp, list_insert, list_values]
  | remove pos =>
    have hpos : atoi (toString pos) = pos :=
      atoi_toString_int pos (by simpa [list_op_in_range] using hop)
    by_cases hp : 0 ≤ pos ∧ pos < lst.length
    · refine ⟨put (list_remove lst pos.toNat), list_remove lst pos.toNat, ?_, ?_, ?_, ?_⟩
      · simp [process_list_command, list_op_tokens, token, h1, hlst, get_nth_element_eq, hp,
          hpos]
      · rfl
      · simp [set_slot]
      · simp [reference_step, list_values_length, hp, list_remove, list_values_eraseIdx]
    · refine ⟨st, lst, ?_, rfl, hlst, ?_⟩
      · simp [process_list_command, list_op_tokens, token, h1, hlst, get_nth_element_eq, hp,
          hpos]
      · simp [reference_step, list_values_length, hp]
  | pop_front =>
    cases lst with
    | nil =>
      refine ⟨st, [], ?_, rfl, hlst, ?_⟩
      · simp [process_list_command, list_op_tokens, token, h1, hlst, list_empty]
      · simp [reference_step, list_values]
    | cons a rest =>
      refine ⟨put (rest), rest, ?_, ?_, ?_, ?_⟩
      · simp [process_list_command, list_op_tokens, token, h1, hlst, list_empty, list_pop_front]
      · rfl
      · simp [set_slot]
      · simp [reference_step, list_values]
  | pop_back =>
    by_cases he : lst = []
    · subst he
      refine ⟨st, [], ?_, rfl, hlst, ?_⟩
      · simp [process_list_command, list_op_tokens, token, h1, hlst, list_empty]
      · simp [reference_step, list_values]
    · obtain ⟨x, hx⟩ : ∃ x, lst.getLast? = some x := by
        cases h : lst.getLast? with
        | none => exact absurd (List.getLast?_eq_none_iff.mp h) he
        | some x => exact ⟨x, rfl⟩
      refine ⟨put (lst.dropLast), lst.dropLast, ?_, ?_, ?_, ?_⟩
      · simp [process_list_command, list_op_tokens, token, h1, hlst, list_empty, list_pop_back, hx, he]
      · rfl
      · simp [set_slot]
      · simp [reference_step, list_values]

theorem list_ops_run (name : String)
    (hidx : 0 ≤ extract_index_from_name name ∧ extract_index_from_name name < MAX_OBJECTS)
    (cmds : List (Env × list_op))
    (hcmds : ∀ c ∈ cmds, c.1.alloc = true ∧ list_op_in_range c.2 = true)
    (st : Registry) (lst : List list_node)
    (hlst : st.list_arr (extract_index_from_name name).toNat = some lst) :
    ∃ st1 lst1,
      run_list_commands st (cmds.map (fun c => (c.1, list_op_tokens name c.2))) = some st1 ∧
      st1.stdout = st.stdout ∧
      st1.list_arr (extract_index_from_name name).toNat = some lst1 ∧
      list_values lst1 = reference_run (list_values lst) (cmds.map (fun c => c.2)) := by
  induction cmds generalizing st lst with
  | nil => exact ⟨st, lst, rfl, rfl, hlst, rfl⟩
  | cons c cmds ih =>
    obtain ⟨henv, hop⟩ := hcmds c (List.mem_cons_self _ _)
    obtain ⟨st1, lst1, hrun, hout, hl1, hv⟩ :=
      list_op_step c.1 henv name st lst c.2 hop hidx hlst
    obtain ⟨st2, lst2, hrun2, hout2, hl2, hv2⟩ :=
      ih (fun d hd => hcmds d (List.mem_cons_of_mem _ hd)) st1 lst1 hl1
    refine ⟨st2, lst2, ?_, hout2.trans hout, hl2, ?_⟩
    · simp only [List.map_cons, run_list_commands, hrun]
      exact hrun2
    · rw [hv2, hv]
      rfl

/-- C2. List ordering against a reference model: for every sequence of
`list_push_front`, `list_push_back`, `list_insert`, `list_remove`,
`list_pop_front` and `list_pop_back` commands on one existing list, with
arguments that are values of `int` and with `malloc` succeeding in each
command (whatever address it returns), after each command, that is after the
first `n` commands for every `n`, the run has a result, the traversal of the
list is the sequence the reference model keeps, and `dumpdata` prints exactly
that sequence. -/
theorem list_ordering_refines_reference (name : String) (st : Registry)
    (lst : List list_node) (cmds : List (Env × list_op)) (n : Nat)
    (hcmds : ∀ c ∈ cmds, c.1.alloc = true ∧ list_op_in_range c.2 = true)
    (hidx : 0 ≤ extract_index_from_name name ∧ extract_index_from_name name < MAX_OBJECTS)
    (hlst : st.list_arr (extract_index_from_name name).toNat = some lst) :
    ∃ st1 lst1,
      run_list_commands st ((cmds.take n).map (fun c => (c.1, list_op_tokens name c.2))) =
        some st1 ∧
      st1.list_arr (extract_index_from_name name).toNat = some lst1 ∧
      list_values lst1 = reference_run (list_values lst) ((cmds.take n).map (fun c => c.2)) ∧
      (process_dumpdata_command st1 ["dumpdata", name]).stdout =
        st.stdout ++
          render_values (reference_run (list_values lst) ((cmds.take n).map (fun c => c.2))) := by
  obtain ⟨st1, lst1, hrun, hout, hl1, hv⟩ := list_ops_run name hidx (cmds.take n)
    (fun c hc => hcmds c (List.mem_of_mem_take hc)) st lst hlst
  refine ⟨st1, lst1, hrun, hl1, hv, ?_⟩
  rw [dumpdata_list st1 name lst1 hidx hl1, hout, hv]

/-- C2 (witness). On the list `[5]` of slot 0 the commands push_front 1,
insert 7 9, remove 0, pop_back, each with its own node address, give a run of
four commands to which the theorem applies. -/
theorem list_ordering_refines_reference_witness :
    ∃ st1 lst1,
      run_list_commands
          { init_registry with list_arr := set_slot init_registry.list_arr 0 (some [⟨10, 5⟩]) }
          (([((⟨true, [], 30⟩ : Env), list_op.push_front 1), (⟨true, [], 31⟩, list_op.insert 7 9),
              (⟨true, [], 32⟩, list_op.remove 0), (⟨true, [], 33⟩, list_op.pop_back)].take 4).map
            (fun c => (c.1, list_op_tokens "list0" c.2))) = some st1 ∧
      st1.list_arr (extract_index_from_name "list0").toNat = some lst1 ∧
      list_values lst1 =
        reference_run (list_values [⟨10, 5⟩])
          (([((⟨true, [], 30⟩ : Env), list_op.push_front 1), (⟨true, [], 31⟩, list_op.insert 7 9),
              (⟨true, [], 32⟩, list_op.remove 0), (⟨true, [], 33⟩, list_op.pop_back)].take 4).map
            (fun c => c.2)) ∧
      (process_dumpdata_command st1 ["dumpdata", "list0"]).stdout =
        ({ init_registry with
            list_arr := set_slot init_registry.list_arr 0 (some [⟨10, 5⟩]) } : Registry).stdout ++
          render_values (reference_run (list_values [⟨10, 5⟩])
            (([((⟨true, [], 30⟩ : Env), list_op.push_front 1),
                (⟨true, [], 31⟩, list_op.insert 7 9),
                (⟨true, [], 32⟩, list_op.remove 0), (⟨true, [], 33⟩, list_op.pop_back)].take 4).map
              (fun c => c.2))) :=
  list_ordering_refines_reference "list0"
    { init_registry with list_arr := set_slot init_registry.list_arr 0 (some [⟨10, 5⟩]) } [⟨10, 5⟩]
    [(⟨true, [], 30⟩, list_op.push_front 1), (⟨true, [], 31⟩, list_op.insert 7 9),
      (⟨true, [], 32⟩, list_op.remove 0), (⟨true, [], 33⟩, list_op.pop_back)] 4
    (by decide) (by decide) (by decide)

theorem swap_list_elements_length (lst : List list_node) (i j : Nat) :
    (swap_list_elements lst i j).length = lst.length := by
  unfold swap_list_elements
  split_ifs
  · rfl
  · split <;> simp

theorem swap_list_elements_values (lst : List list_node) (i j : Nat) (hi : i < lst.length)
    (hj : j < lst.length) (k : Nat) :
    (list_values (swap_list_elements lst i j))[k]? =
      if k = i then (list_values lst)[j]? else if k = j then (list_values lst)[i]?
      else (list_values lst)[k]? := by
  unfold swap_list_elements
  by_cases hij : i = j
  · subst hij
    simp only [if_true]
    split_ifs with h
    · rw [h]
    · rfl
  · rw [if_neg hij]
    have h1 : lst[i]? = some lst[i] := List.getElem?_eq_getElem hi
    have h2 : lst[j]? = some lst[j] := List.getElem?_eq_getElem hj
    rw [h1, h2]
    simp only [list_values, List.getElem?_map, List.getElem?_set, List.length_set]
    by_cases hki : k = i
    · subst hki
      simp [hij, hi, hj, Ne.symm hij]
    · by_cases hkj : k = j
      · subst hkj
        simp [hij, hi, hj, hki]
      · simp [hki, hkj, Ne.symm hki, Ne.symm hkj]

theorem list_nodes_set_value (l : List list_node) (n : Nat) (x : list_node) (v : Int)
    (h : l[n]? = some x) : list_nodes (l.set n { x with value := v }) = list_nodes l := by
  unfold list_nodes
  apply List.ext_getElem?
  intro k
  simp only [List.getElem?_map, List.getElem?_set, List.length_set]
  by_cases hk : n = k
  · subst hk
    have hn : n < l.length := by
      by_contra hc
      rw [List.getElem?_eq_none (by omega)] at h
      exact absurd h (by simp)
    simp [hn, h]
  · simp [hk]

theorem swap_list_elements_nodes (lst : List list_node) (i j : Nat) :
    list_nodes (swap_list_elements lst i j) = list_nodes lst := by
  unfold swap_list_elements
  split_ifs with hij
  · rfl
  · split
    · rename_i first_node second_node h1 h2
      have h3 : (lst.set i { first_node with value := second_node.value })[j]? =
          some second_node := by
        rw [List.getElem?_set_ne hij, h2]
      simp only []
      rw [list_nodes_set_value _ j second_node _ h3, list_nodes_set_value _ i first_node _ h1]
    · rfl

theorem process_list_swap (env : Env) (name t2 t3 : String) (st : Registry)
    (lst : List list_node)
    (hidx : 0 ≤ extract_index_from_name name ∧ extract_index_from_name name < MAX_OBJECTS)
    (hlst : st.list_arr (extract_index_from_name name).toNat = some lst) :
    process_list_command env st ["list_swap", name, t2, t3] =
      match get_nth_element lst (atoi t2), get_nth_element lst (atoi t3) with
      | some elem1, some elem2 =>
        let lst1 := swap_list_elements lst elem1 elem2
        some { st with list_arr := set_slot st.list_arr (extract_index_from_name name).toNat lst1 }
      | _, _ => some st := by
  have h1 : ¬ (extract_index_from_name name < 0 ∨ extract_index_from_name name ≥ MAX_OBJECTS) := by
    omega
  simp [process_list_command, token, h1, hlst]

/-- C4. `list_swap l i j` exchanges payloads only: the command has a result,
the list keeps its length and its nodes stay in their order (the sequence of
the node identities is the same), for two valid positions the value at `i` is
the old value at `j` and vice versa while the values at all other positions
stay; when `i = j`, or when a position is no valid index, the list is
unchanged. The positions are the `int` values that `atoi` reads. -/
theorem list_swap_exchanges_values (env : Env) (name t2 t3 : String) (st : Registry)
    (lst : List list_node)
    (hidx : 0 ≤ extract_index_from_name name ∧ extract_index_from_name name < MAX_OBJECTS)
    (hlst : st.list_arr (extract_index_from_name name).toNat = some lst) :
    ∃ st1 lst1, process_list_command env st ["list_swap", name, t2, t3] = some st1 ∧
      st1.list_arr (extract_index_from_name name).toNat = some lst1 ∧
      lst1.length = lst.length ∧
      list_nodes lst1 = list_nodes lst ∧
      (∀ i j : Nat, atoi t2 = i → atoi t3 = j → i < lst.length → j < lst.length →
        (list_values lst1)[i]? = (list_values lst)[j]? ∧
        (list_values lst1)[j]? = (list_values lst)[i]? ∧
        ∀ k, k ≠ i → k ≠ j → (list_values lst1)[k]? = (list_values lst)[k]?) ∧
      ((atoi t2 = atoi t3 ∨ ¬ (0 ≤ atoi t2 ∧ atoi t2 < lst.length) ∨
          ¬ (0 ≤ atoi t3 ∧ atoi t3 < lst.length)) → lst1 = lst) := by
  rw [process_list_swap env name t2 t3 st lst hidx hlst, get_nth_element_eq,
    get_nth_element_eq]
  by_cases hv2 : 0 ≤ atoi t2 ∧ atoi t2 < lst.length
  · by_cases hv3 : 0 ≤ atoi t3 ∧ atoi t3 < lst.length
    · rw [if_pos hv2, if_pos hv3]
      have hi : (atoi t2).toNat < lst.length := by omega
      have hj : (atoi t3).toNat < lst.length := by omega
      refine ⟨_, swap_list_elements lst (atoi t2).toNat (atoi t3).toNat, rfl, ?_, ?_, ?_, ?_, ?_⟩
      · simp [set_slot]
      · exact swap_list_elements_length _ _ _
      · exact swap_list_elements_nodes _ _ _
      · intro i j hi2 hj2 _ _
        have ei : (atoi t2).toNat = i := by omega
        have ej : (atoi t3).toNat = j := by omega
        subst ei
        subst ej
        refine ⟨?_, ?_, ?_⟩
        · rw [swap_list_elements_values lst _ _ hi hj]
          simp
        · rw [swap_list_elements_values lst _ _ hi hj]
          by_cases hji : (atoi t3).toNat = (atoi t2).toNat
          · simp [hji]
          · simp [hji]
        · intro k hki hkj
          rw [swap_list_elements_values lst _ _ hi hj]
          simp [hki, hkj]
      · intro h
        rcases h with h | h | h
        · simp [swap_list_elements, h]
        · exact absurd hv2 h
        · exact absurd hv3 h
    · rw [if_pos hv2, if_neg hv3]
      refine ⟨st, lst, rfl, hlst, rfl, rfl, ?_, fun _ => rfl⟩
      intro i j hi2 hj2 hi hj
      exfalso
      apply hv3
      omega
  · rw [if_neg hv2]
    refine ⟨st, lst, ?_, hlst, rfl, rfl, ?_, fun _ => rfl⟩
    · split <;> simp_all
    · intro i j hi2 hj2 hi hj
      exfalso
      apply hv2
      omega

/-- C4 (witness). `list_swap list0 0 2` on the list `[1, 2, 3]` of slot 0,
whose nodes have the identities 10, 11, 12. -/
theorem list_swap_exchanges_values_witness :
    ∃ st1 lst1,
      process_list_command ⟨true, [], 0⟩
          { init_registry with
            list_arr := set_slot init_registry.list_arr 0 (some [⟨10, 1⟩, ⟨11, 2⟩, ⟨12, 3⟩]) }
          ["list_swap", "list0", "0", "2"] = some st1 ∧
      st1.list_arr (extract_index_from_name "list0").toNat = some lst1 ∧
      lst1.length = [(⟨10, 1⟩ : list_node), ⟨11, 2⟩, ⟨12, 3⟩].length ∧
      list_nodes lst1 = list_nodes [⟨10, 1⟩, ⟨11, 2⟩, ⟨12, 3⟩] ∧
      (∀ i j : Nat, atoi "0" = i → atoi "2" = j →
        i < [(⟨10, 1⟩ : list_node), ⟨11, 2⟩, ⟨12, 3⟩].length →
        j < [(⟨10, 1⟩ : list_node), ⟨11, 2⟩, ⟨12, 3⟩].length →
        (list_values lst1)[i]? = (list_values [⟨10, 1⟩, ⟨11, 2⟩, ⟨12, 3⟩])[j]? ∧
        (list_values lst1)[j]? = (list_values [⟨10, 1⟩, ⟨11, 2⟩, ⟨12, 3⟩])[i]? ∧
        ∀ k, k ≠ i → k ≠ j →
          (list_values lst1)[k]? = (list_values [⟨10, 1⟩, ⟨11, 2⟩, ⟨12, 3⟩])[k]?) ∧
      ((atoi "0" = atoi "2" ∨
          ¬ (0 ≤ atoi "0" ∧ atoi "0" < [(⟨10, 1⟩ : list_node), ⟨11, 2⟩, ⟨12, 3⟩].length) ∨
          ¬ (0 ≤ atoi "2" ∧ atoi "2" < [(⟨10, 1⟩ : list_node), ⟨11, 2⟩, ⟨12, 3⟩].length)) →
        lst1 = [⟨10, 1⟩, ⟨11, 2⟩, ⟨12, 3⟩]) :=
  list_swap_exchanges_values ⟨true, [], 0⟩ "list0" "0" "2"
    { init_registry with
      list_arr := set_slot init_registry.list_arr 0 (some [⟨10, 1⟩, ⟨11, 2⟩, ⟨12, 3⟩]) }
    [⟨10, 1⟩, ⟨11, 2⟩, ⟨12, 3⟩] (by decide) (by decide)

/-- The worked example of `list_swap`: on the nodes 10, 11, 12 holding 1, 2, 3
the command `list_swap list0 0 2` leaves the same nodes in the same order,
holding 3, 2, 1; and with the position `4294967296`, which `atoi` reads as the
`int` 0, `list_swap list0 4294967296 1` exchanges the first two values. -/
theorem list_swap_scenario :
    (process_list_command ⟨true, [], 0⟩
        { init_registry with
          list_arr := set_slot init_registry.list_arr 0 (some [⟨10, 1⟩, ⟨11, 2⟩, ⟨12, 3⟩]) }
        ["list_swap", "list0", "0", "2"]).map (fun st1 => st1.list_arr 0) =
      some (some [⟨10, 3⟩, ⟨11, 2⟩, ⟨12, 1⟩]) ∧
    (process_list_command ⟨true, [], 0⟩
        { init_registry with
          list_arr := set_slot init_registry.list_arr 0 (some [⟨10, 1⟩, ⟨11, 2⟩, ⟨12, 3⟩]) }
        ["list_swap", "list0", "4294967296", "1"]).map (fun st1 => st1.list_arr 0) =
      some (some [⟨10, 2⟩, ⟨11, 1⟩, ⟨12, 3⟩]) := by
  decide

theorem process_list_command_splice (env : Env) (dest src tp ts te : String) (st : Registry)
    (dest_list : List list_node)
    (hd : 0 ≤ extract_index_from_name dest ∧ extract_index_from_name dest < MAX_OBJECTS)
    (hdl : st.list_arr (extract_index_from_name dest).toNat = some dest_list) :
    process_list_command env st ["list_splice", dest, tp, src, ts, te] =
      process_list_splice st ["list_splice", dest, tp, src, ts, te] := by
  have h1 : ¬ (extract_index_from_name dest < 0 ∨ extract_index_from_name dest ≥ MAX_OBJECTS) := by
    omega
  simp [process_list_command, token, h1, hdl]

/-- C5. Splice through the dispatcher: for two distinct lists `X` (source) and
`Y` (destination) and positions `0 <= s <= e < size(X)`, `0 <= p < size(Y)`,
the command `list_splice Y p X s e` has a result in which `Y` is
`Y[0..p) ++ X[s..e) ++ Y[p..)` and `X` is `X[0..s) ++ X[e..)`; the sizes add up
to the same total, nothing is printed, and for `s = e` both lists are as
before. -/
theorem list_splice_moves_range (env : Env) (dest src tp ts te : String) (st : Registry)
    (Y X : List list_node) (p s e : Nat)
    (hd : 0 ≤ extract_index_from_name dest ∧ extract_index_from_name dest < MAX_OBJECTS)
    (hs : 0 ≤ extract_index_from_name src ∧ extract_index_from_name src < MAX_OBJECTS)
    (hne : extract_index_from_name dest ≠ extract_index_from_name src)
    (hY : st.list_arr (extract_index_from_name dest).toNat = some Y)
    (hX : st.list_arr (extract_index_from_name src).toNat = some X)
    (hp : atoi tp = p) (hs1 : atoi ts = s) (he : atoi te = e)
    (hse : s ≤ e) (heX : e < X.length) (hpY : p < Y.length) :
    ∃ st1 Y1 X1, process_list_command env st ["list_splice", dest, tp, src, ts, te] = some st1 ∧
      st1.list_arr (extract_index_from_name dest).toNat = some Y1 ∧
      st1.list_arr (extract_index_from_name src).toNat = some X1 ∧
      Y1 = Y.take p ++ (X.drop s).take (e - s) ++ Y.drop p ∧
      X1 = X.take s ++ X.drop e ∧
      Y1.length + X1.length = Y.length + X.length ∧
      st1.stdout = st.stdout ∧
      (s = e → Y1 = Y ∧ X1 = X) := by
  have h1 : ¬ (extract_index_from_name dest < 0 ∨ extract_index_from_name dest ≥ MAX_OBJECTS ∨
      extract_index_from_name src < 0 ∨ extract_index_from_name src ≥ MAX_OBJECTS) := by
    omega
  have hne2 : (extract_index_from_name dest).toNat ≠ (extract_index_from_name src).toNat := by
    omega
  have gp : get_nth_element Y (atoi tp) = some p := by
    rw [get_nth_element_eq, if_pos (by omega)]; simp [hp]
  have gs : get_nth_element X (atoi ts) = some s := by
    rw [get_nth_element_eq, if_pos (by omega)]; simp [hs1]
  have ge : get_nth_element X (atoi te) = some e := by
    rw [get_nth_element_eq, if_pos (by omega)]; simp [he]
  rw [process_list_command_splice env dest src tp ts te st Y hd hY]
  simp only [process_list_splice, token, List.getD_cons_zero, List.getD_cons_succ, h1, if_false,
    hY, hX, gp, gs, ge, if_neg hne2, list_splice]
  by_cases hse2 : s = e
  · subst hse2
    rw [if_pos rfl]
    refine ⟨_, Y, X, rfl, ?_, ?_, ?_, ?_, rfl, rfl, fun _ => ⟨rfl, rfl⟩⟩
    · simp [set_slot]
    · simp [set_slot, Ne.symm hne2]
    · simp
    · simp
  · rw [if_neg hse2, if_pos (by omega)]
    refine ⟨_, Y.take p ++ ((X.drop s).take (e - s) ++ Y.drop p), X.take s ++ X.drop e,
      rfl, ?_, ?_, ?_, rfl, ?_, rfl, fun h => absurd h hse2⟩
    · simp [set_slot]
    · simp [set_slot, Ne.symm hne2]
    · simp
    · simp only [List.length_append, List.length_take, List.length_drop]
      omega

/-- C5 (witness). `list_splice list0 1 list1 0 2` on the lists `1 2 3` and
`4 5 6` of the example registry. -/
theorem list_splice_moves_range_witness :
    ∃ st1 Y1 X1,
      process_list_command ⟨true, [], 0⟩ example_registry
          ["list_splice", "list0", "1", "list1", "0", "2"] = some st1 ∧
      st1.list_arr (extract_index_from_name "list0").toNat = some Y1 ∧
      st1.list_arr (extract_index_from_name "list1").toNat = some X1 ∧
      Y1 = ([⟨10, 1⟩, ⟨11, 2⟩, ⟨12, 3⟩] : List list_node).take 1 ++
            (([⟨20, 4⟩, ⟨21, 5⟩, ⟨22, 6⟩] : List list_node).drop 0).take (2 - 0) ++
            ([⟨10, 1⟩, ⟨11, 2⟩, ⟨12, 3⟩] : List list_node).drop 1 ∧
      X1 = ([⟨20, 4⟩, ⟨21, 5⟩, ⟨22, 6⟩] : List list_node).take 0 ++ ([⟨20, 4⟩, ⟨21, 5⟩, ⟨22, 6⟩] : List list_node).drop 2 ∧
      Y1.length + X1.length =
        ([⟨10, 1⟩, ⟨11, 2⟩, ⟨12, 3⟩] : List list_node).length + ([⟨20, 4⟩, ⟨21, 5⟩, ⟨22, 6⟩] : List list_node).length ∧
      st1.stdout = example_registry.stdout ∧
      (0 = 2 → Y1 = [⟨10, 1⟩, ⟨11, 2⟩, ⟨12, 3⟩] ∧ X1 = [⟨20, 4⟩, ⟨21, 5⟩, ⟨22, 6⟩]) :=
  list_splice_moves_range ⟨true, [], 0⟩ "list0" "list1" "1" "0" "2" example_registry
    [⟨10, 1⟩, ⟨11, 2⟩, ⟨12, 3⟩] [⟨20, 4⟩, ⟨21, 5⟩, ⟨22, 6⟩] 1 0 2 (by decide) (by decide) (by decide) (by decide)
    (by decide) (by decide) (by decide) (by decide) (by decide) (by decide) (by decide)

theorem bitmap_test_set (b : bitmap) (i k : Nat) (v : Bool) :
    bitmap_test (bitmap_set b i v) k = if k = i ∧ i < b.length then v else bitmap_test b k := by
  unfold bitmap_test bitmap_set
  rw [List.getD_eq_getElem?_getD, List.getD_eq_getElem?_getD, List.getElem?_set]
  by_cases h : i = k
  · subst h
    by_cases h2 : i < b.length
    · simp [h2]
    · have : b[i]? = none := List.getElem?_eq_none (by omega)
      simp [h2, this]
  · simp [h, Ne.symm h]

theorem bitmap_size_set (b : bitmap) (i : Nat) (v : Bool) :
    bitmap_size (bitmap_set b i v) = bitmap_size b := by
  simp [bitmap_size, bitmap_set]

theorem expand_copy_size (bmp : bitmap) (fuel i : Nat) (new_bmp : bitmap) :
    bitmap_size (expand_copy bmp fuel i new_bmp) = bitmap_size new_bmp := by
  induction fuel generalizing i new_bmp with
  | zero => rfl
  | succ fuel ih => simp [expand_copy, ih, bitmap_size_set]

theorem expand_copy_test (bmp : bitmap) (fuel i : Nat) (new_bmp : bitmap) (k : Nat) :
    bitmap_test (expand_copy bmp fuel i new_bmp) k =
      if i ≤ k ∧ k < i + fuel ∧ k < bitmap_size new_bmp then bitmap_test bmp k
      else bitmap_test new_bmp k := by
  induction fuel generalizing i new_bmp with
  | zero =>
    simp only [expand_copy]
    rw [if_neg (by omega)]
  | succ fuel ih =>
    simp only [expand_copy]
    rw [ih, bitmap_size_set, bitmap_test_set]
    unfold bitmap_size
    by_cases hk : k = i
    · subst hk
      by_cases h2 : k < new_bmp.length
      · rw [if_neg (by omega), if_pos ⟨rfl, h2⟩, if_pos (by omega)]
      · rw [if_neg (by omega), if_neg (by omega), if_neg (by omega)]
    · by_cases h3 : i + 1 ≤ k ∧ k < i + 1 + fuel ∧ k < new_bmp.length
      · rw [if_pos h3, if_pos (by omega)]
      · rw [if_neg h3, if_neg (by omega), if_neg (by omega)]

theorem bitmap_test_replicate (n k : Nat) : bitmap_test (List.replicate n false) k = false := by
  unfold bitmap_test
  rw [List.getD_eq_getElem?_getD]
  by_cases h : k < n
  · simp [List.getElem?_replicate, h]
  · simp [List.getElem?_replicate, h]

/-- C10. Expand preserves the prefix: for a bitmap of size `n` and an `int`
`new_capacity` `n2 > n` for which the allocation succeeds, `expand_bitmap`
returns a bitmap of size exactly `n2` whose bit `i` is the old bit for every
`i < n` and is false for every `n <= i < n2`. -/
theorem expand_bitmap_preserves_prefix (bmp : bitmap) (n2 : Int)
    (hgrow : (bitmap_size bmp : Int) < n2) (hint : n2 ≤ 2147483647) :
    ∃ new_bmp, expand_bitmap true bmp n2 = some new_bmp ∧
      (bitmap_size new_bmp : Int) = n2 ∧
      (∀ i, i < bitmap_size bmp → bitmap_test new_bmp i = bitmap_test bmp i) ∧
      (∀ i, bitmap_size bmp ≤ i → (i : Int) < n2 → bitmap_test new_bmp i = false) := by
  have hsz : to_size_t n2 = n2.toNat := by
    unfold to_size_t
    rw [Int.emod_eq_of_lt (by omega) (by omega)]
  have hlt : ¬ (n2.toNat ≤ bitmap_size bmp) := by omega
  refine ⟨expand_copy bmp (bitmap_size bmp) 0 (List.replicate n2.toNat false), ?_, ?_, ?_, ?_⟩
  · simp [expand_bitmap, hsz, hlt, bitmap_create]
  · rw [expand_copy_size]
    simp only [bitmap_size, List.length_replicate]
    omega
  · intro i hi
    unfold bitmap_size at hi hgrow
    rw [expand_copy_test, if_pos]
    simp only [bitmap_size, List.length_replicate]
    omega
  · intro i hi hi2
    rw [expand_copy_test, if_neg]
    · exact bitmap_test_replicate _ _
    · simp only [bitmap_size] at hi ⊢
      omega

/-- C10 (witness). The bitmap `101` expanded to five bits. -/
theorem expand_bitmap_preserves_prefix_witness :
    ∃ new_bmp, expand_bitmap true [true, false, true] 5 = some new_bmp ∧
      (bitmap_size new_bmp : Int) = 5 ∧
      (∀ i, i < bitmap_size [true, false, true] →
        bitmap_test new_bmp i = bitmap_test [true, false, true] i) ∧
      (∀ i, bitmap_size [true, false, true] ≤ i → (i : Int) < 5 →
        bitmap_test new_bmp i = false) :=
  expand_bitmap_preserves_prefix [true, false, true] 5 (by decide) (by decide)

section shuffle
variable {α : Type}

theorem array_swap_length (a : List α) (j k : Nat) : (array_swap a j k).length = a.length := by
  unfold array_swap
  split <;> simp

theorem array_swap_append (a b : List α) (j k : Nat) (hj : j < a.length) (hk : k < a.length) :
    array_swap (a ++ b) j k = array_swap a j k ++ b := by
  unfold array_swap
  rw [List.getElem?_append_left hj, List.getElem?_append_left hk,
    List.getElem?_eq_getElem hj, List.getElem?_eq_getElem hk]
  simp only []
  rw [List.set_append_left _ _ hj, List.set_append_left _ _ (by simpa using hk)]

theorem shuffle_loop_length : ∀ (m : Nat) (rs : List Nat) (a : List α),
    (shuffle_loop m rs a).length = a.length
  | 0, _, _ => rfl
  | 1, _, _ => rfl
  | j + 2, rs, a => by
    simp only [shuffle_loop]
    rw [shuffle_loop_length (j + 1), array_swap_length]

theorem shuffle_loop_append : ∀ (m : Nat) (rs : List Nat) (a b : List α), m ≤ a.length →
    shuffle_loop m rs (a ++ b) = shuffle_loop m rs a ++ b
  | 0, _, _, _, _ => rfl
  | 1, _, _, _, _ => rfl
  | j + 2, rs, a, b, h => by
    simp only [shuffle_loop]
    have hk : rs.headD 0 % (j + 2) < a.length :=
      lt_of_lt_of_le (Nat.mod_lt _ (by omega)) h
    rw [array_swap_append a b (j + 1) _ (by omega) hk]
    exact shuffle_loop_append (j + 1) rs.tail _ b (by rw [array_swap_length]; omega)

theorem array_swap_last (init : List α) (last : α) (k : Nat) (hk : k ≤ init.length) :
    array_swap (init ++ [last]) init.length k =
      init.set k last ++ [(init ++ [last]).getD k last] := by
  unfold array_swap
  have h1 : (init ++ [last])[init.length]? = some last := by simp
  rw [h1]
  rcases Nat.lt_or_ge k init.length with h | h
  · have h2 : (init ++ [last])[k]? = some init[k] := by
      rw [List.getElem?_append_left h, List.getElem?_eq_getElem h]
    rw [h2]
    simp only []
    rw [List.getD_eq_getElem?_getD, h2, List.set_append_right _ _ (le_refl _)]
    simp [List.set_append_left _ _ h]
  · have hk2 : k = init.length := by omega
    subst hk2
    rw [h1]
    simp only []
    rw [List.getD_eq_getElem?_getD, h1]
    simp [List.set_eq_of_length_le (le_refl init.length)]

theorem set_concat_perm (init : List α) (last : α) (k : Nat) :
    List.Perm (init.set k last ++ [(init ++ [last]).getD k last]) (init ++ [last]) := by
  induction init generalizing k with
  | nil => simp
  | cons a t ih =>
    cases k with
    | zero =>
      simp only [List.set_cons_zero, List.cons_append, List.getD_cons_zero]
      exact ((List.perm_append_singleton a t).cons last).trans
        ((List.Perm.swap a last t).trans ((List.perm_append_singleton last t).symm.cons a))
    | succ k =>
      simp only [List.set_cons_succ, List.cons_append, List.getD_cons_succ]
      exact (ih k).cons a

theorem shuffle_loop_concat (m : Nat) (r : Nat) (rs : List Nat) (init : List α) (last : α)
    (hlen : init.length = m + 1) :
    shuffle_loop (m + 2) (r :: rs) (init ++ [last]) =
      shuffle_loop (m + 1) rs (init.set (r % (m + 2)) last) ++
        [(init ++ [last]).getD (r % (m + 2)) last] := by
  have hk : r % (m + 2) ≤ init.length := by
    have := Nat.mod_lt r (show m + 2 > 0 by omega)
    omega
  simp only [shuffle_loop, List.headD_cons, List.tail_cons]
  rw [← hlen, array_swap_last init last _ hk]
  exact shuffle_loop_append _ rs _ _ (by simp)

theorem shuffle_loop_perm : ∀ (n : Nat) (rs : List Nat) (a : List α), a.length = n →
    List.Perm (shuffle_loop n rs a) a
  | 0, _, _, _ => List.Perm.refl _
  | 1, _, _, _ => List.Perm.refl _
  | m + 2, rs, a, h => by
    rcases List.eq_nil_or_concat a with h0 | ⟨init, last, h1⟩
    · subst h0; simp at h
    · rw [List.concat_eq_append] at h1
      subst h1
      have hlen : init.length = m + 1 := by simpa using h
      cases rs with
      | nil =>
        have h0 : shuffle_loop (m + 2) [] (init ++ [last]) =
            shuffle_loop (m + 2) [0] (init ++ [last]) := by
          simp [shuffle_loop]
        rw [h0, shuffle_loop_concat m 0 [] init last hlen]
        have hp := shuffle_loop_perm (m + 1) [] (init.set (0 % (m + 2)) last) (by simpa using hlen)
        exact (hp.append_right _).trans (set_concat_perm init last _)
      | cons r rs =>
        rw [shuffle_loop_concat m r rs init last hlen]
        have hp := shuffle_loop_perm (m + 1) rs (init.set (r % (m + 2)) last) (by simpa using hlen)
        exact (hp.append_right _).trans (set_concat_perm init last _)

end shuffle

theorem pop_all_eq_nil {α : Type} (lst : List α) : pop_all lst = [] := by
  induction lst with
  | nil => rfl
  | cons a t ih => simpa [pop_all] using ih

theorem push_all_eq_append {α : Type} (lst node_array : List α) :
    push_all lst node_array = lst ++ node_array := by
  induction node_array generalizing lst with
  | nil => simp [push_all]
  | cons a t ih =>
    have := ih (lst ++ [a])
    simp only [push_all, List.foldl_cons, list_push_back] at this ⊢
    simp [this]

theorem randomize_list_eq (rands : List Nat) (lst : List list_node) :
    randomize_list true rands lst = shuffle_loop lst.length rands lst := by
  unfold randomize_list
  cases lst with
  | nil => simp [list_empty, shuffle_loop]
  | cons a t => simp [list_empty, list_size, pop_all_eq_nil, push_all_eq_append]

theorem randomize_list_perm (alloc : Bool) (rands : List Nat) (lst : List list_node) :
    List.Perm (randomize_list alloc rands lst) lst := by
  cases alloc with
  | false =>
    have : randomize_list false rands lst = lst := by
      simp [randomize_list]
    rw [this]
  | true =>
    rw [randomize_list_eq]
    exact shuffle_loop_perm _ rands lst rfl

/-- C6. `randomize_list` yields a permutation: whatever values `rand ()`
returns and whether or not the pointer array can be allocated, the list
afterwards holds the same elements with the same multiplicities as before, so
its length is the same; an empty list is left unchanged. -/
theorem randomize_list_is_permutation (alloc : Bool) (rands : List Nat) (lst : List list_node) :
    List.Perm (randomize_list alloc rands lst) lst ∧
      (randomize_list alloc rands lst).length = lst.length ∧
      randomize_list alloc rands [] = [] :=
  ⟨randomize_list_perm alloc rands lst, (randomize_list_perm alloc rands lst).length_eq,
    by simp [randomize_list, list_empty]⟩

section shuffle_draws
variable {α : Type}

theorem draws_in_range_succ (m : Nat) (ks : List Nat) (h : draws_in_range (m + 2) ks = true) :
    ∃ k rs, ks = k :: rs ∧ k ≤ m + 1 ∧ draws_in_range (m + 1) rs = true := by
  cases ks with
  | nil => simp [draws_in_range] at h
  | cons k rs =>
    simp only [draws_in_range, Bool.and_eq_true, decide_eq_true_eq] at h
    exact ⟨k, rs, rfl, h.1, h.2⟩

theorem shuffle_loop_draw (m k : Nat) (rs : List Nat) (init : List α) (last : α)
    (hlen : init.length = m + 1) (hk : k ≤ m + 1) :
    shuffle_loop (m + 2) (k :: rs) (init ++ [last]) =
      shuffle_loop (m + 1) rs (init.set k last) ++ [(init ++ [last]).getD k last] := by
  have := shuffle_loop_concat m k rs init last hlen
  rwa [Nat.mod_eq_of_lt (by omega)] at this

theorem getD_inj_of_nodup (l : List α) (d : α) (hl : l.Nodup) (i j : Nat) (hi : i < l.length)
    (hj : j < l.length) (h : l.getD i d = l.getD j d) : i = j := by
  rw [List.getD_eq_getElem l d hi, List.getD_eq_getElem l d hj] at h
  exact (hl.getElem_inj_iff).mp h

theorem shuffle_loop_injective : ∀ (n : Nat) (ks ks' : List Nat) (a : List α), a.Nodup →
    a.length = n → draws_in_range n ks = true → draws_in_range n ks' = true →
    shuffle_loop n ks a = shuffle_loop n ks' a → ks = ks'
  | 0, ks, ks', _, _, _, h, h', _ => by
    simp only [draws_in_range, List.isEmpty_iff] at h h'
    rw [h, h']
  | 1, ks, ks', _, _, _, h, h', _ => by
    simp only [draws_in_range, List.isEmpty_iff] at h h'
    rw [h, h']
  | m + 2, ks, ks', a, hnd, hlen, h, h', heq => by
    obtain ⟨k, rs, rfl, hk, hrs⟩ := draws_in_range_succ m ks h
    obtain ⟨k', rs', rfl, hk', hrs'⟩ := draws_in_range_succ m ks' h'
    rcases List.eq_nil_or_concat a with h0 | ⟨init, last, h1⟩
    · subst h0; simp at hlen
    · rw [List.concat_eq_append] at h1
      subst h1
      have hl : init.length = m + 1 := by simpa using hlen
      rw [shuffle_loop_draw m k rs init last hl hk, shuffle_loop_draw m k' rs' init last hl hk']
        at heq
      obtain ⟨hpre, hlast⟩ := List.append_inj' heq rfl
      have hkk : k = k' := by
        apply getD_inj_of_nodup (init ++ [last]) last hnd k k' (by simp; omega) (by simp; omega)
        simpa using hlast
      subst hkk
      have hnd2 : (init.set k last).Nodup :=
        ((set_concat_perm init last k).symm.nodup hnd).of_append_left
      have := shuffle_loop_injective (m + 1) rs rs' (init.set k last) hnd2 (by simpa using hl)
        hrs hrs' hpre
      rw [this]

theorem shuffle_loop_surjective : ∀ (n : Nat) (a t : List α), a.length = n → List.Perm t a →
    ∃ ks, draws_in_range n ks = true ∧ shuffle_loop n ks a = t
  | 0, a, t, hlen, hp => by
    have ha : a = [] := List.length_eq_zero.mp hlen
    subst ha
    exact ⟨[], rfl, (List.perm_nil.mp hp).symm⟩
  | 1, a, t, hlen, hp => by
    obtain ⟨x, rfl⟩ := List.length_eq_one.mp hlen
    exact ⟨[], rfl, (List.perm_singleton.mp hp).symm⟩
  | m + 2, a, t, hlen, hp => by
    rcases List.eq_nil_or_concat a with h0 | ⟨init, last, h1⟩
    · subst h0; simp at hlen
    rw [List.concat_eq_append] at h1
    subst h1
    have hl : init.length = m + 1 := by simpa using hlen
    rcases List.eq_nil_or_concat t with h0 | ⟨t1, x, h1⟩
    · subst h0
      have := hp.length_eq
      simp at this
    rw [List.concat_eq_append] at h1
    subst h1
    have hx : x ∈ init ++ [last] := hp.mem_iff.mp (by simp)
    obtain ⟨k, hk, hkx⟩ := List.getElem_of_mem hx
    have hk1 : k ≤ m + 1 := by
      simp only [List.length_append, List.length_singleton] at hk
      omega
    have hd : (init ++ [last]).getD k last = x := by
      rw [List.getD_eq_getElem _ _ hk, hkx]
    have hp2 : List.Perm t1 (init.set k last) := by
      have h2 := hp.trans (set_concat_perm init last k).symm
      rw [hd] at h2
      exact (List.perm_append_right_iff [x]).mp h2
    obtain ⟨rs, hrs, hres⟩ :=
      shuffle_loop_surjective (m + 1) (init.set k last) t1 (by simpa using hl) hp2
    refine ⟨k :: rs, ?_, ?_⟩
    · simp [draws_in_range, hk1, hrs]
    · rw [shuffle_loop_draw m k rs init last hl hk1, hres, hd]

end shuffle_draws

/-- C7. `randomize_list` visits every permutation: for a list of distinct
elements (of any length `n`, in particular `n >= 1`) the map from the draw
sequences `(k_{n-1}, ..., k_1)` with `0 <= k_j <= j` to the resulting order is
a bijection onto the permutations of the list: every result is a permutation,
two draw sequences with the same result are equal, and every permutation is
the result of a draw sequence. -/
theorem randomize_list_draws_bijective (lst : List list_node) (hd : lst.Nodup) :
    (∀ ks, draws_in_range lst.length ks = true → List.Perm (randomize_list true ks lst) lst) ∧
    (∀ ks ks', draws_in_range lst.length ks = true → draws_in_range lst.length ks' = true →
      randomize_list true ks lst = randomize_list true ks' lst → ks = ks') ∧
    (∀ t, List.Perm t lst →
      ∃ ks, draws_in_range lst.length ks = true ∧ randomize_list true ks lst = t) := by
  refine ⟨fun ks _ => randomize_list_perm true ks lst, ?_, ?_⟩
  · intro ks ks' h h' heq
    rw [randomize_list_eq, randomize_list_eq] at heq
    exact shuffle_loop_injective lst.length ks ks' lst hd rfl h h' heq
  · intro t ht
    obtain ⟨ks, hks, hres⟩ := shuffle_loop_surjective lst.length lst t rfl ht
    exact ⟨ks, hks, by rw [randomize_list_eq, hres]⟩

/-- C7 (witness). The three distinct elements `1 2 3`. -/
theorem randomize_list_draws_bijective_witness :
    (∀ ks, draws_in_range ([⟨10, 1⟩, ⟨11, 2⟩, ⟨12, 3⟩] : List list_node).length ks = true →
      List.Perm (randomize_list true ks [⟨10, 1⟩, ⟨11, 2⟩, ⟨12, 3⟩]) [⟨10, 1⟩, ⟨11, 2⟩, ⟨12, 3⟩]) ∧
    (∀ ks ks', draws_in_range ([⟨10, 1⟩, ⟨11, 2⟩, ⟨12, 3⟩] : List list_node).length ks = true →
      draws_in_range ([⟨10, 1⟩, ⟨11, 2⟩, ⟨12, 3⟩] : List list_node).length ks' = true →
      randomize_list true ks [⟨10, 1⟩, ⟨11, 2⟩, ⟨12, 3⟩] = randomize_list true ks' [⟨10, 1⟩, ⟨11, 2⟩, ⟨12, 3⟩] →
      ks = ks') ∧
    (∀ t, List.Perm t ([⟨10, 1⟩, ⟨11, 2⟩, ⟨12, 3⟩] : List list_node) →
      ∃ ks, draws_in_range ([⟨10, 1⟩, ⟨11, 2⟩, ⟨12, 3⟩] : List list_node).length ks = true ∧
        randomize_list true ks [⟨10, 1⟩, ⟨11, 2⟩, ⟨12, 3⟩] = t) :=
  randomize_list_draws_bijective [⟨10, 1⟩, ⟨11, 2⟩, ⟨12, 3⟩] (by decide)

theorem sort_insert_perm {α : Type} (less : α → α → Bool) (elem : α) (sorted : List α) :
    List.Perm (sort_insert less elem sorted) (elem :: sorted) := by
  induction sorted with
  | nil => exact List.Perm.refl _
  | cons e rest ih =>
    simp only [sort_insert]
    split_ifs
    · exact List.Perm.refl _
    · exact (ih.cons e).trans (List.Perm.swap elem e rest)

theorem list_sort_fold_perm {α : Type} (less : α → α → Bool) (lst acc : List α) :
    List.Perm (lst.foldl (fun sorted elem => sort_insert less elem sorted) acc) (acc ++ lst) := by
  induction lst generalizing acc with
  | nil => simp
  | cons a t ih =>
    simp only [List.foldl_cons]
    refine (ih _).trans ?_
    refine ((sort_insert_perm less a acc).append_right t).trans ?_
    exact List.perm_middle.symm

theorem list_sort_perm {α : Type} (less : α → α → Bool) (lst : List α) :
    List.Perm (list_sort less lst) lst := by
  simpa [list_sort] using list_sort_fold_perm less lst []

theorem sort_insert_sorted (elem : list_node) (sorted : List list_node)
    (h : sorted.Pairwise (fun a b => a.value ≤ b.value)) :
    (sort_insert compare_list_elements elem sorted).Pairwise (fun a b => a.value ≤ b.value) := by
  induction sorted with
  | nil => simp [sort_insert]
  | cons e rest ih =>
    rw [List.pairwise_cons] at h
    simp only [sort_insert, compare_list_elements, decide_eq_true_eq]
    split_ifs with hlt
    · rw [List.pairwise_cons]
      refine ⟨?_, List.pairwise_cons.mpr h⟩
      intro b hb
      rcases List.mem_cons.mp hb with rfl | hb
      · exact le_of_lt hlt
      · exact le_trans (le_of_lt hlt) (h.1 b hb)
    · rw [List.pairwise_cons]
      refine ⟨?_, ih h.2⟩
      intro b hb
      have hb2 := (sort_insert_perm compare_list_elements elem rest).mem_iff.mp hb
      rcases List.mem_cons.mp hb2 with rfl | hb3
      · exact not_lt.mp hlt
      · exact h.1 b hb3

theorem list_sort_fold_sorted (lst acc : List list_node)
    (h : acc.Pairwise (fun a b => a.value ≤ b.value)) :
    (lst.foldl (fun sorted elem => sort_insert compare_list_elements elem sorted) acc).Pairwise
      (fun a b => a.value ≤ b.value) := by
  induction lst generalizing acc with
  | nil => exact h
  | cons a t ih => exact ih _ (sort_insert_sorted a acc h)

theorem list_sort_sorted (lst : List list_node) :
    (list_values (list_sort compare_list_elements lst)).Sorted (fun a b => a ≤ b) := by
  unfold List.Sorted list_values
  rw [List.pairwise_map]
  exact list_sort_fold_sorted lst [] List.Pairwise.nil

theorem run_list_commands_append (cmds1 cmds2 : List (Env × List String)) (st : Registry) :
    run_list_commands st (cmds1 ++ cmds2) =
      (run_list_commands st cmds1).bind (fun st1 => run_list_commands st1 cmds2) := by
  induction cmds1 generalizing st with
  | nil => rfl
  | cons c cs ih =>
    obtain ⟨env, toks⟩ := c
    simp only [List.cons_append, run_list_commands]
    cases process_list_command env st toks with
    | none => rfl
    | some st1 => exact ih st1

theorem reference_run_push_back (vs : List Int) (seq : List Int) :
    reference_run seq (vs.map list_op.push_back) = seq ++ vs := by
  induction vs generalizing seq with
  | nil => simp [reference_run]
  | cons v vs ih =>
    have := ih (seq ++ [v])
    simp only [reference_run, List.map_cons, List.foldl_cons, reference_step] at this ⊢
    simp [this]

theorem process_list_sort (env : Env) (name : String) (st : Registry) (lst : List list_node)
    (hidx : 0 ≤ extract_index_from_name name ∧ extract_index_from_name name < MAX_OBJECTS)
    (hlst : st.list_arr (extract_index_from_name name).toNat = some lst) :
    ∃ st1, process_list_command env st ["list_sort", name] = some st1 ∧
      st1.stdout = st.stdout ∧
      st1.list_arr (extract_index_from_name name).toNat =
        some (list_sort compare_list_elements lst) := by
  have h1 : ¬ (extract_index_from_name name < 0 ∨ extract_index_from_name name ≥ MAX_OBJECTS) := by
    omega
  let lst1 := list_sort compare_list_elements lst
  refine ⟨{ st with list_arr := set_slot st.list_arr (extract_index_from_name name).toNat lst1 },
    by simp [process_list_command, token, h1, hlst, lst1], rfl, ?_⟩
  simp [set_slot, lst1]

/-- C8. Sort-then-dump: on a list freshly created under `name`, after any
finite sequence of integers that are values of `int` is pushed with
`list_push_back` and `list_sort` is run (with `malloc` succeeding in each
push, whatever address it returns), `dumpdata` prints exactly those integers
in non-decreasing order, a permutation of the pushed values, in decimal,
separated by single spaces, with no trailing space and one final newline. -/
theorem sort_then_dump_is_sorted (env : Env) (name : String)
    (st : Registry) (pushes : List (Env × Int))
    (hpushes : ∀ c ∈ pushes, c.1.alloc = true ∧ int_range c.2)
    (hidx : 0 ≤ extract_index_from_name name ∧ extract_index_from_name name < MAX_OBJECTS) :
    ∃ st1 sorted,
      run_list_commands (process_create_command true st ["create", "list", name])
        (pushes.map (fun c => (c.1, ["list_push_back", name, toString c.2])) ++
          [(env, ["list_sort", name])]) = some st1 ∧
      (process_dumpdata_command st1 ["dumpdata", name]).stdout =
        st.stdout ++ render_values sorted ∧
      sorted.Sorted (fun a b => a ≤ b) ∧ List.Perm sorted (pushes.map (fun c => c.2)) := by
  have h1 : ¬ (extract_index_from_name name < 0 ∨ extract_index_from_name name ≥ MAX_OBJECTS) := by
    omega
  have h0 : (process_create_command true st ["create", "list", name]).list_arr
      (extract_index_from_name name).toNat = some [] := by
    simp [process_create_command, init_list, token, h1, set_slot]
  have hout0 : (process_create_command true st ["create", "list", name]).stdout = st.stdout := by
    simp [process_create_command, init_list, token, h1]
  have hrange : ∀ c ∈ pushes.map (fun c => (c.1, list_op.push_back c.2)),
      c.1.alloc = true ∧ list_op_in_range c.2 = true := by
    intro c hc
    obtain ⟨d, hd, rfl⟩ := List.mem_map.mp hc
    have := hpushes d hd
    simpa [list_op_in_range] using this
  obtain ⟨st1, lst1, hrun, hout1, hl1, hv1⟩ :=
    list_ops_run name hidx (pushes.map (fun c => (c.1, list_op.push_back c.2))) hrange _ [] h0
  have hcmds : (pushes.map (fun c => (c.1, list_op.push_back c.2))).map
      (fun c => (c.1, list_op_tokens name c.2)) =
      pushes.map (fun c => (c.1, ["list_push_back", name, toString c.2])) := by
    simp [List.map_map, Function.comp_def, list_op_tokens]
  have hops : (pushes.map (fun c => (c.1, list_op.push_back c.2))).map (fun c => c.2) =
      (pushes.map (fun c => c.2)).map list_op.push_back := by
    simp [List.map_map, Function.comp_def]
  rw [hcmds] at hrun
  rw [hops, reference_run_push_back] at hv1
  obtain ⟨st2, hsort, hout2, hl2⟩ := process_list_sort env name st1 lst1 hidx hl1
  refine ⟨st2, list_values (list_sort compare_list_elements lst1), ?_, ?_, ?_, ?_⟩
  · rw [run_list_commands_append, hrun]
    simp [run_list_commands, hsort]
  · rw [dumpdata_list st2 name _ hidx hl2, hout2, hout1, hout0]
  · exact list_sort_sorted lst1
  · have := (list_sort_perm compare_list_elements lst1).map (fun node => node.value)
    simp only [list_values, List.map_nil, List.nil_append] at hv1 ⊢
    rw [hv1] at this
    exact this

/-- C8 (witness). The pushes `3`, `1`, `2`, each with its own node address, on
the list created as `list1`. -/
theorem sort_then_dump_is_sorted_witness :
    ∃ st1 sorted,
      run_list_commands (process_create_command true init_registry ["create", "list", "list1"])
        (([((⟨true, [], 40⟩ : Env), (3 : Int)), (⟨true, [], 41⟩, 1), (⟨true, [], 42⟩, 2)]).map
            (fun c => (c.1, ["list_push_back", "list1", toString c.2])) ++
          [(⟨true, [], 0⟩, ["list_sort", "list1"])]) = some st1 ∧
      (process_dumpdata_command st1 ["dumpdata", "list1"]).stdout =
        init_registry.stdout ++ render_values sorted ∧
      sorted.Sorted (fun a b => a ≤ b) ∧
      List.Perm sorted
        (([((⟨true, [], 40⟩ : Env), (3 : Int)), (⟨true, [], 41⟩, 1), (⟨true, [], 42⟩, 2)]).map
          (fun c => c.2)) :=
  sort_then_dump_is_sorted ⟨true, [], 0⟩ "list1" init_registry
    [(⟨true, [], 40⟩, 3), (⟨true, [], 41⟩, 1), (⟨true, [], 42⟩, 2)] (by decide) (by decide)

/-- The concrete scenario of the specification: create list 1, push_back 3,
1, 2, sort, dump prints `1 2 3` and a newline. -/
theorem sort_dump_scenario :
    (run_list_commands (process_create_command true init_registry ["create", "list", "list1"])
        [(⟨true, [], 40⟩, ["list_push_back", "list1", "3"]),
          (⟨true, [], 41⟩, ["list_push_back", "list1", "1"]),
          (⟨true, [], 42⟩, ["list_push_back", "list1", "2"]),
          (⟨true, [], 0⟩, ["list_sort", "list1"])]).map
      (fun st1 => (process_dumpdata_command st1 ["dumpdata", "list1"]).stdout) =
      some "1 2 3\n" := by
  decide

theorem hash_equal_iff (a b : hash_node) : hash_equal compare_hash_elements a b = true ↔ a = b := by
  cases a with | mk x => cases b with | mk y =>
  simp only [hash_equal, compare_hash_elements, Bool.and_eq_true, Bool.not_eq_true',
    decide_eq_false_iff_not, not_lt, hash_node.mk.injEq]
  omega

theorem bucket_modify_length (f : List hash_node → List hash_node) (bs : List (List hash_node))
    (i : Nat) : (bucket_modify f bs i).length = bs.length := by
  induction bs generalizing i with
  | nil => rfl
  | cons c cs ih =>
    cases i with
    | zero => rfl
    | succ i => simp [bucket_modify, ih]

theorem bucket_modify_getD (f : List hash_node → List hash_node) (bs : List (List hash_node))
    (i j : Nat) :
    (bucket_modify f bs i).getD j [] =
      if j = i ∧ i < bs.length then f (bs.getD i []) else bs.getD j [] := by
  induction bs generalizing i j with
  | nil => simp [bucket_modify]
  | cons c cs ih =>
    cases i with
    | zero =>
      cases j with
      | zero => simp [bucket_modify]
      | succ j => simp [bucket_modify]
    | succ i =>
      cases j with
      | zero => simp [bucket_modify]
      | succ j =>
        simp only [bucket_modify, List.getD_cons_succ, ih, List.length_cons]
        simp

theorem bucket_modify_append_perm (e : hash_node) (bs : List (List hash_node)) (i : Nat)
    (hi : i < bs.length) :
    List.Perm (bucket_modify (fun chain => chain ++ [e]) bs i).flatten (e :: bs.flatten) := by
  induction bs generalizing i with
  | nil => simp at hi
  | cons c cs ih =>
    cases i with
    | zero =>
      simp only [bucket_modify, List.flatten_cons, List.append_assoc, List.singleton_append]
      exact List.perm_middle
    | succ i =>
      simp only [bucket_modify, List.flatten_cons]
      have := ih i (by simpa using hi)
      exact (this.append_left c).trans List.perm_middle

theorem bucket_modify_sublist (f : List hash_node → List hash_node)
    (hf : ∀ c, List.Sublist (f c) c) (bs : List (List hash_node)) (i : Nat) :
    List.Sublist (bucket_modify f bs i).flatten bs.flatten := by
  induction bs generalizing i with
  | nil => simp [bucket_modify]
  | cons c cs ih =>
    cases i with
    | zero =>
      simp only [bucket_modify, List.flatten_cons]
      exact (hf c).append (List.Sublist.refl _)
    | succ i =>
      simp only [bucket_modify, List.flatten_cons]
      exact (List.Sublist.refl c).append (ih i)

theorem mem_flatten_iff_getD (bs : List (List hash_node)) (x : hash_node) :
    x ∈ bs.flatten ↔ ∃ j, x ∈ bs.getD j [] := by
  constructor
  · intro h
    obtain ⟨c, hc, hx⟩ := List.mem_flatten.mp h
    obtain ⟨j, hj, hcj⟩ := List.getElem_of_mem hc
    refine ⟨j, ?_⟩
    rw [List.getD_eq_getElem _ _ hj, hcj]
    exact hx
  · rintro ⟨j, hx⟩
    by_cases hj : j < bs.length
    · rw [List.getD_eq_getElem _ _ hj] at hx
      exact List.mem_flatten.mpr ⟨bs[j], List.getElem_mem hj, hx⟩
    · rw [List.getD_eq_default _ _ (by omega)] at hx
      simp at hx

theorem chain_replace_eq (e : hash_node) (chain : List hash_node) :
    chain_replace compare_hash_elements e chain = chain := by
  induction chain with
  | nil => rfl
  | cons x rest ih =>
    simp only [chain_replace]
    split_ifs with h
    · rw [(hash_equal_iff x e).mp h]
    · rw [ih]

theorem chain_remove_sublist (e : hash_node) (chain : List hash_node) :
    List.Sublist (chain_remove compare_hash_elements e chain) chain := by
  induction chain with
  | nil => exact List.Sublist.refl _
  | cons x rest ih =>
    simp only [chain_remove]
    split_ifs
    · exact List.sublist_cons_self x rest
    · exact ih.cons₂ x

theorem bucket_modify_id (f : List hash_node → List hash_node) (hf : ∀ c, f c = c)
    (bs : List (List hash_node)) (i : Nat) : bucket_modify f bs i = bs := by
  induction bs generalizing i with
  | nil => rfl
  | cons c cs ih =>
    cases i with
    | zero => simp [bucket_modify, hf]
    | succ i => simp [bucket_modify, ih]

theorem well_bucketed_append (hash_fn : hash_node → Nat) (bs : List (List hash_node))
    (e : hash_node) (hw : well_bucketed hash_fn bs) :
    well_bucketed hash_fn
      (bucket_modify (fun chain => chain ++ [e]) bs (hash_fn e % bs.length)) := by
  intro j x hx
  rw [bucket_modify_length]
  rw [bucket_modify_getD] at hx
  split_ifs at hx with h
  · rcases List.mem_append.mp hx with h1 | h1
    · rw [← h.1] at h1
      exact hw j x h1
    · rw [List.mem_singleton.mp h1]
      exact h.1.symm
  · exact hw j x hx

theorem well_bucketed_shrink (hash_fn : hash_node → Nat) (f : List hash_node → List hash_node)
    (hf : ∀ c, List.Sublist (f c) c) (bs : List (List hash_node)) (i : Nat)
    (hw : well_bucketed hash_fn bs) : well_bucketed hash_fn (bucket_modify f bs i) := by
  intro j x hx
  rw [bucket_modify_length]
  rw [bucket_modify_getD] at hx
  split_ifs at hx with h
  · rw [← h.1] at hx
    exact hw j x ((hf _).subset hx)
  · exact hw j x hx

theorem hash_find_none (hash_fn : hash_node → Nat) (t : hash) (e : hash_node)
    (hw : well_bucketed hash_fn t.buckets)
    (h : hash_find hash_fn compare_hash_elements t e = none) : e ∉ hash_elements t := by
  intro hmem
  obtain ⟨j, hj⟩ := (mem_flatten_iff_getD t.buckets e).mp hmem
  have hje := hw j e hj
  unfold hash_find find_bucket at h
  rw [hje] at h
  have := List.find?_eq_none.mp h e hj
  exact this ((hash_equal_iff e e).mpr rfl)

theorem well_bucketed_replicate (hash_fn : hash_node → Nat) (n : Nat) :
    well_bucketed hash_fn (List.replicate n []) := by
  intro j x hx
  rw [List.getD_eq_getElem?_getD, List.getElem?_replicate] at hx
  split_ifs at hx <;> simp at hx

theorem rehash_fold (hash_fn : hash_node → Nat) (elems : List hash_node)
    (acc : List (List hash_node)) (hpos : 0 < acc.length) (hw : well_bucketed hash_fn acc) :
    well_bucketed hash_fn (elems.foldl (rehash_insert hash_fn) acc) ∧
      List.Perm (elems.foldl (rehash_insert hash_fn) acc).flatten (acc.flatten ++ elems) ∧
      (elems.foldl (rehash_insert hash_fn) acc).length = acc.length := by
  induction elems generalizing acc with
  | nil => simp [hw]
  | cons e rest ih =>
    simp only [List.foldl_cons]
    have hlen : (rehash_insert hash_fn acc e).length = acc.length := bucket_modify_length _ _ _
    obtain ⟨h1, h2, h3⟩ := ih (rehash_insert hash_fn acc e) (by omega)
      (well_bucketed_append hash_fn acc e hw)
    refine ⟨h1, h2.trans ?_, h3.trans hlen⟩
    have hp := bucket_modify_append_perm e acc (hash_fn e % acc.length) (Nat.mod_lt _ hpos)
    exact ((hp.append_right rest).trans List.perm_middle.symm)

theorem table_inv_grow (hash_fn : hash_node → Nat) (t : hash) (h : table_inv hash_fn t) :
    table_inv hash_fn (grow_and_rehash hash_fn t) := by
  obtain ⟨hpos, _, hnd⟩ := h
  have hpos2 : 0 < (List.replicate (2 * t.buckets.length) ([] : List hash_node)).length := by
    simp; omega
  obtain ⟨h1, h2, h3⟩ := rehash_fold hash_fn t.buckets.flatten _ hpos2
    (well_bucketed_replicate hash_fn _)
  refine ⟨?_, h1, ?_⟩
  · show 0 < (t.buckets.flatten.foldl (rehash_insert hash_fn) _).length
    rw [h3]; exact hpos2
  · unfold hash_elements at hnd ⊢
    have : List.Perm (grow_and_rehash hash_fn t).buckets.flatten t.buckets.flatten := by
      refine h2.trans ?_
      simp
    exact this.symm.nodup hnd

theorem table_inv_insert (hash_fn : hash_node → Nat) (t : hash) (e : hash_node)
    (h : table_inv hash_fn t) :
    table_inv hash_fn (hash_insert hash_fn compare_hash_elements t e).1 := by
  unfold hash_insert
  cases hfind : hash_find hash_fn compare_hash_elements t e with
  | some old => exact h
  | none =>
    have hnot := hash_find_none hash_fn t e h.2.1 hfind
    have hinv : table_inv hash_fn
        { elem_cnt := t.elem_cnt + 1,
          buckets := bucket_modify (fun chain => chain ++ [e]) t.buckets (find_bucket hash_fn t e) } := by
      refine ⟨?_, well_bucketed_append hash_fn t.buckets e h.2.1, ?_⟩
      · show 0 < (bucket_modify _ _ _).length
        rw [bucket_modify_length]; exact h.1
      · have hp := bucket_modify_append_perm e t.buckets (hash_fn e % t.buckets.length)
          (Nat.mod_lt _ h.1)
        exact hp.symm.nodup (List.nodup_cons.mpr ⟨hnot, h.2.2⟩)
    simp only []
    split_ifs
    · exact table_inv_grow hash_fn _ hinv
    · exact hinv

theorem table_inv_replace (hash_fn : hash_node → Nat) (t : hash) (e : hash_node)
    (h : table_inv hash_fn t) :
    table_inv hash_fn (hash_replace hash_fn compare_hash_elements t e).1 := by
  unfold hash_replace
  cases hfind : hash_find hash_fn compare_hash_elements t e with
  | some old =>
    simp only []
    rw [bucket_modify_id _ (chain_replace_eq e)]
    exact h
  | none => exact table_inv_insert hash_fn t e h

theorem table_inv_delete (hash_fn : hash_node → Nat) (t : hash) (e : hash_node)
    (h : table_inv hash_fn t) :
    table_inv hash_fn (hash_delete hash_fn compare_hash_elements t e).1 := by
  unfold hash_delete
  cases hfind : hash_find hash_fn compare_hash_elements t e with
  | some old =>
    refine ⟨?_, well_bucketed_shrink hash_fn _ (chain_remove_sublist e) _ _ h.2.1, ?_⟩
    · show 0 < (bucket_modify _ _ _).length
      rw [bucket_modify_length]; exact h.1
    · exact (bucket_modify_sublist _ (chain_remove_sublist e) _ _).nodup h.2.2
  | none => exact h

theorem table_inv_clear (hash_fn : hash_node → Nat) (t : hash) (h : table_inv hash_fn t) :
    table_inv hash_fn (hash_clear t) := by
  have hb : (hash_clear t).buckets = List.replicate t.buckets.length [] := by
    simp only [hash_clear]
    exact List.map_const' _ _
  refine ⟨?_, ?_, ?_⟩
  · rw [hb]; simpa using h.1
  · rw [hb]; exact well_bucketed_replicate hash_fn _
  · unfold hash_elements
    rw [hb]
    have : (List.replicate t.buckets.length ([] : List hash_node)).flatten = [] := by
      simp
    rw [this]
    exact List.nodup_nil

theorem table_inv_init (hash_fn : hash_node → Nat) : table_inv hash_fn hash_init := by
  refine ⟨by decide, well_bucketed_replicate hash_fn 4, by decide⟩

theorem hash_unique_of_inv (hash_fn : hash_node → Nat) (t : hash) (h : table_inv hash_fn t) :
    hash_unique t := by
  unfold hash_unique
  refine h.2.2.map ?_
  intro a b hab
  cases a; cases b
  simpa using hab

theorem hash_op_step (hash_int : Int → Nat) (env : Env) (henv : env.alloc = true)
    (name : String) (st : Registry) (t : hash) (op : hash_op)
    (hidx : 0 ≤ extract_index_from_name name ∧ extract_index_from_name name < MAX_OBJECTS)
    (ht : st.hash_arr (extract_index_from_name name).toNat = some t) :
    ∃ st1, process_hash_command hash_int env st (hash_op_tokens name op) = some st1 ∧
      st1.hash_arr (extract_index_from_name name).toNat = some (hash_op_table hash_int t op) := by
  have h1 : ¬ (extract_index_from_name name < 0 ∨ extract_index_from_name name ≥ MAX_OBJECTS) := by
    omega
  have hsq : scan_word "square" = "square" := by decide
  have htr : scan_word "triple" = "triple" := by decide
  cases op <;>
    simp [process_hash_command, hash_op_tokens, token, h1, ht, henv, hash_op_table, set_slot,
      printf, hsq, htr]

theorem hash_ops_run (hash_int : Int → Nat) (env : Env) (henv : env.alloc = true)
    (name : String)
    (hidx : 0 ≤ extract_index_from_name name ∧ extract_index_from_name name < MAX_OBJECTS)
    (ops : List hash_op) (st : Registry) (t : hash)
    (ht : st.hash_arr (extract_index_from_name name).toNat = some t) :
    ∃ st1, run_hash_commands hash_int st (ops.map (fun op => (env, hash_op_tokens name op))) =
        some st1 ∧
      st1.hash_arr (extract_index_from_name name).toNat =
        some (ops.foldl (hash_op_table hash_int) t) := by
  induction ops generalizing st t with
  | nil => exact ⟨st, rfl, ht⟩
  | cons op ops ih =>
    obtain ⟨st1, hstep, ht1⟩ := hash_op_step hash_int env henv name st t op hidx ht
    obtain ⟨st2, hrun, ht2⟩ := ih st1 _ ht1
    refine ⟨st2, ?_, ht2⟩
    simp only [List.map_cons, run_hash_commands, hstep]
    exact hrun

theorem table_inv_ops (hash_int : Int → Nat) (ops : List hash_op) (t : hash)
    (hops : ∀ op ∈ ops, hash_op_is_apply op = false)
    (h : table_inv (compute_hash hash_int) t) :
    table_inv (compute_hash hash_int) (ops.foldl (hash_op_table hash_int) t) := by
  induction ops generalizing t with
  | nil => exact h
  | cons op ops ih =>
    simp only [List.foldl_cons]
    apply ih _ (fun o ho => hops o (List.mem_cons_of_mem _ ho))
    have hop := hops op (List.mem_cons_self _ _)
    cases op with
    | insert v => exact table_inv_insert _ t _ h
    | replace v => exact table_inv_replace _ t _ h
    | delete v => exact table_inv_delete _ t _ h
    | clear => exact table_inv_clear _ t h
    | apply_square => simp [hash_op_is_apply] at hop
    | apply_triple => simp [hash_op_is_apply] at hop

theorem create_hashtable_slot (st : Registry) (name : String)
    (hidx : 0 ≤ extract_index_from_name name ∧ extract_index_from_name name < MAX_OBJECTS) :
    (process_create_command true st ["create", "hashtable", name]).hash_arr
      (extract_index_from_name name).toNat = some hash_init := by
  have h1 : ¬ (extract_index_from_name name < 0 ∨ extract_index_from_name name ≥ MAX_OBJECTS) := by
    omega
  have h2 : ¬ ("hashtable" = "list") := by decide
  simp [process_create_command, init_hash_table, token, h1, h2, set_slot]

/-- C9 (amended). Hash uniqueness without `hash_apply`: in the state after
any sequence of `hash_insert`, `hash_replace`, `hash_delete` and `hash_clear`
commands on a freshly created table (with `malloc` succeeding, for every hash
function of the library) the table holds no two elements with the same
`num_value`. -/
theorem hash_unique_without_apply (hash_int : Int → Nat) (env : Env) (henv : env.alloc = true)
    (name : String) (st : Registry) (ops : List hash_op)
    (hidx : 0 ≤ extract_index_from_name name ∧ extract_index_from_name name < MAX_OBJECTS)
    (hops : ∀ op ∈ ops, hash_op_is_apply op = false) :
    ∃ st1 t,
      run_hash_commands hash_int (process_create_command true st ["create", "hashtable", name])
        (ops.map (fun op => (env, hash_op_tokens name op))) = some st1 ∧
      st1.hash_arr (extract_index_from_name name).toNat = some t ∧ hash_unique t := by
  obtain ⟨st1, hrun, ht1⟩ := hash_ops_run hash_int env henv name hidx ops _ hash_init
    (create_hashtable_slot st name hidx)
  exact ⟨st1, _, hrun, ht1, hash_unique_of_inv _ _
    (table_inv_ops hash_int ops hash_init hops (table_inv_init _))⟩

theorem grow_and_rehash_perm (hash_fn : hash_node → Nat) (t : hash) (hpos : 0 < t.buckets.length) :
    List.Perm (hash_elements (grow_and_rehash hash_fn t)) (hash_elements t) := by
  have hpos2 : 0 < (List.replicate (2 * t.buckets.length) ([] : List hash_node)).length := by
    simp; omega
  obtain ⟨_, h2, _⟩ := rehash_fold hash_fn t.buckets.flatten _ hpos2
    (well_bucketed_replicate hash_fn _)
  unfold hash_elements
  refine h2.trans ?_
  simp

theorem hash_insert_elements (hash_fn : hash_node → Nat) (t : hash) (e : hash_node)
    (h : table_inv hash_fn t) (hnot : e ∉ hash_elements t) :
    List.Perm (hash_elements (hash_insert hash_fn compare_hash_elements t e).1)
      (e :: hash_elements t) := by
  unfold hash_insert
  cases hfind : hash_find hash_fn compare_hash_elements t e with
  | some old =>
    exfalso
    unfold hash_find at hfind
    have hp : hash_equal compare_hash_elements old e = true :=
      @List.find?_some _ (fun x => hash_equal compare_hash_elements x e) old _ hfind
    have heq := (hash_equal_iff old e).mp hp
    have hmem := List.mem_of_find?_eq_some hfind
    rw [heq] at hmem
    exact hnot ((mem_flatten_iff_getD t.buckets e).mpr ⟨_, hmem⟩)
  | none =>
    have hp : List.Perm
        (bucket_modify (fun chain => chain ++ [e]) t.buckets (find_bucket hash_fn t e)).flatten
        (e :: t.buckets.flatten) :=
      bucket_modify_append_perm e t.buckets (hash_fn e % t.buckets.length) (Nat.mod_lt _ h.1)
    simp only []
    split_ifs
    · refine (grow_and_rehash_perm hash_fn _ ?_).trans hp
      show 0 < (bucket_modify _ _ _).length
      rw [bucket_modify_length]; exact h.1
    · exact hp

theorem hash_apply_elements (action : hash_node → hash_node) (t : hash) :
    hash_elements (hash_apply action t) = (hash_elements t).map action := by
  unfold hash_elements hash_apply
  exact (List.map_flatten action t.buckets).symm

/-- C9 (counterexample). On a freshly created table the commands
`hash_insert 2`, `hash_insert -2`, `hash_apply square` leave two elements with
`num_value` 4, whatever the hash function of the library is. -/
theorem hash_apply_breaks_uniqueness :
    ¬ ∃ hash_int : Int → Nat, ∀ st1 t,
      run_hash_commands hash_int
          (process_create_command true init_registry ["create", "hashtable", "hash0"])
          ([hash_op.insert 2, hash_op.insert (-2), hash_op.apply_square].map
            (fun op => ((⟨true, [], 0⟩ : Env), hash_op_tokens "hash0" op))) = some st1 →
      st1.hash_arr 0 = some t → hash_unique t := by
  rintro ⟨hash_int, h⟩
  obtain ⟨st1, hrun, ht1⟩ := hash_ops_run hash_int ⟨true, [], 0⟩ rfl "hash0" (by decide)
    [hash_op.insert 2, hash_op.insert (-2), hash_op.apply_square]
    (process_create_command true init_registry ["create", "hashtable", "hash0"]) hash_init
    (create_hashtable_slot init_registry "hash0" (by decide))
  have hidx : (extract_index_from_name "hash0").toNat = 0 := by decide
  rw [hidx] at ht1
  have hu := h st1 _ hrun ht1
  simp only [List.foldl_cons, List.foldl_nil, hash_op_table] at hu
  have inv0 := table_inv_init (compute_hash hash_int)
  have p1 := hash_insert_elements (compute_hash hash_int) hash_init ⟨2⟩ inv0 (by decide)
  have inv1 := table_inv_insert (compute_hash hash_int) hash_init ⟨2⟩ inv0
  have hn2 : (⟨-2⟩ : hash_node) ∉
      hash_elements (hash_insert (compute_hash hash_int) compare_hash_elements hash_init ⟨2⟩).1 := by
    intro hm
    have := p1.mem_iff.mp hm
    revert this
    decide
  have p2 := hash_insert_elements (compute_hash hash_int) _ ⟨-2⟩ inv1 hn2
  have p3 := p2.trans (p1.cons _)
  unfold hash_unique at hu
  rw [hash_apply_elements] at hu
  have p4 := (p3.map square_element).map (fun e => e.num_value)
  have := p4.nodup_iff.mp hu
  revert this
  decide

/-- C9 (witness). The commands insert 5, insert 3, insert 5, replace 3,
delete 5 on the table created as `hash2`. -/
theorem hash_unique_without_apply_witness :
    ∃ st1 t,
      run_hash_commands (fun v => v.natAbs)
        (process_create_command true init_registry ["create", "hashtable", "hash2"])
        ([hash_op.insert 5, hash_op.insert 3, hash_op.insert 5, hash_op.replace 3,
            hash_op.delete 5].map
          (fun op => ((⟨true, [], 0⟩ : Env), hash_op_tokens "hash2" op))) = some st1 ∧
      st1.hash_arr (extract_index_from_name "hash2").toNat = some t ∧ hash_unique t :=
  hash_unique_without_apply (fun v => v.natAbs) ⟨true, [], 0⟩ rfl "hash2" init_registry
    [hash_op.insert 5, hash_op.insert 3, hash_op.insert 5, hash_op.replace 3,
      hash_op.delete 5] (by decide) (by decide)

/-- The part of the no-op contract of `expand_bitmap` the code keeps: for
`0 <= new_capacity <= size` the same bitmap is returned, whatever the
allocator would do. -/
theorem expand_bitmap_noop_of_nonneg (alloc : Bool) (bmp : bitmap) (new_capacity : Int)
    (h0 : 0 ≤ new_capacity) (hle : new_capacity ≤ bitmap_size bmp) :
    expand_bitmap alloc bmp new_capacity = some bmp := by
  have hsz : to_size_t new_capacity ≤ bitmap_size bmp := by
    unfold to_size_t
    omega
  simp [expand_bitmap, hsz]

theorem to_size_t_neg (v : Int) (hneg : v < 0) (hmin : -2147483648 ≤ v) :
    to_size_t v = (v + 18446744073709551616).toNat := by
  unfold to_size_t
  have : v % 18446744073709551616 = v + 18446744073709551616 := by
    rw [← Int.add_emod_self]
    exact Int.emod_eq_of_lt (by omega) (by omega)
  rw [this]

/-- A negative `int` capacity never takes the no-op branch of `expand_bitmap`:
the comparison with `bitmap_size` is made in `size_t`, so the result is `NULL`
or a new bitmap of `(size_t) new_capacity` bits, not the bitmap passed in. -/
theorem expand_bitmap_negative (alloc : Bool) (bmp : bitmap) (new_capacity : Int)
    (hneg : new_capacity < 0) (hmin : -2147483648 ≤ new_capacity)
    (hsize : bitmap_size bmp ≤ 2147483647) :
    expand_bitmap alloc bmp new_capacity ≠ some bmp := by
  have hsz := to_size_t_neg new_capacity hneg hmin
  have hgt : ¬ (to_size_t new_capacity ≤ bitmap_size bmp) := by
    rw [hsz]; omega
  cases alloc with
  | false => simp [expand_bitmap, hgt, bitmap_create]
  | true =>
    simp only [expand_bitmap, hgt, if_false, bitmap_create, if_true]
    intro h
    have hlen := congrArg (fun o => o.map bitmap_size) h
    simp only [Option.map_some', expand_copy_size, Option.some.injEq] at hlen
    simp only [bitmap_size, List.length_replicate] at hlen hgt
    omega

/-- C11 (failing input). On the three bits `101`, `expand_bitmap (bmp, -1)`,
the call the command `bitmap_expand bm0 -4` makes, does not return the same
bitmap: with the allocation failing it returns `NULL`, with the allocation
succeeding a new bitmap of `SIZE_MAX` bits, and the command leaves `NULL` in
the slot when the allocation fails. -/
theorem expand_bitmap_negative_capacity_not_noop :
    expand_bitmap false [true, false, true] (-1) = none ∧
    (∃ new_bmp, expand_bitmap true [true, false, true] (-1) = some new_bmp ∧
      bitmap_size new_bmp = 18446744073709551615) ∧
    (process_bitmap_command ⟨false, [], 0⟩ example_bitmap_registry
        ["bitmap_expand", "bm0", "-4"]).map (fun st1 => st1.bmp_arr 0) = some none := by
  have hsz : to_size_t (-1) = 18446744073709551615 := by decide
  have hgt : ¬ (18446744073709551615 ≤ bitmap_size [true, false, true]) := by decide
  refine ⟨by decide, ?_, by decide⟩
  refine ⟨expand_copy [true, false, true] (bitmap_size [true, false, true]) 0
    (List.replicate 18446744073709551615 false), ?_, ?_⟩
  · simp only [expand_bitmap, hsz, hgt, if_false, bitmap_create, if_true]
  · rw [expand_copy_size]
    simp only [bitmap_size, List.length_replicate]

/-- C12 (failing input). With the three bits `101` in slot 0 and the
allocation of the larger bitmap failing, `expand_bitmap` returns `NULL` and the
command `bitmap_expand bm0 2` stores it: the slot is `NULL` afterwards and no
longer holds the original bitmap. -/
theorem bitmap_expand_failed_alloc_clears_slot :
    expand_bitmap false [true, false, true] 5 = none ∧
    example_bitmap_registry.bmp_arr 0 = some [true, false, true] ∧
    (process_bitmap_command ⟨false, [], 0⟩ example_bitmap_registry
        ["bitmap_expand", "bm0", "2"]).map (fun st1 => st1.bmp_arr 0) = some none := by
  refine ⟨by decide, by decide, by decide⟩

theorem not_digit_iff (c : Char) : (c < '0' || c > '9') = !c.isDigit := by
  have h0 : ('0' : Char).val = 48 := rfl
  have h9 : ('9' : Char).val = 57 := rfl
  rw [Bool.eq_iff_iff]
  simp only [Bool.or_eq_true, decide_eq_true_eq, Bool.not_eq_true', Char.isDigit,
    Bool.and_eq_false_imp, GT.gt, Char.lt_def, h0, h9, UInt32.lt_def, UInt32.le_def,
    ge_iff_le]
  constructor
  · rintro (h | h) h2
    · exfalso; revert h h2; simp [Fin.lt_def, Fin.le_def]
    · revert h; simp [Fin.lt_def, Fin.le_def]
  · intro h
    by_cases h1 : c.val.val < (48 : UInt32).val
    · exact Or.inl h1
    · right
      have := h (by simpa [Fin.lt_def, Fin.le_def] using h1)
      revert this; simp [Fin.lt_def, Fin.le_def]

theorem digit_not_space (c : Char) (hc : c.isDigit = true) :
    isspace c = false ∧ c ≠ '-' ∧ c ≠ '+' := by
  refine ⟨?_, ?_, ?_⟩
  · cases hs : isspace c with
    | false => rfl
    | true =>
      exfalso
      unfold isspace at hs
      simp only [Bool.or_eq_true, decide_eq_true_eq] at hs
      rcases hs with ((((h | h) | h) | h) | h) | h <;> subst h <;> revert hc <;> decide
  · intro h; subst h; revert hc; decide
  · intro h; subst h; revert hc; decide

theorem atoi_chars_digit (c : Char) (cs : List Char) (hc : c.isDigit = true) :
    atoi_chars (c :: cs) = to_int (strtol_clamp (atoi_digits (c :: cs) 0)) := by
  obtain ⟨h1, h2, h3⟩ := digit_not_space c hc
  unfold atoi_chars strtol_chars
  simp only [List.dropWhile_cons, h1]
  split
  · rename_i heq
    simp at heq
    exact absurd heq.1 h2
  · rename_i heq
    simp at heq
    exact absurd heq.1 h3
  · rfl

theorem atoi_digits_eq_fold (l : List Char) (acc : Int) :
    atoi_digits l acc =
      (l.takeWhile Char.isDigit).foldl (fun a c => a * 10 + ((c.toNat : Int) - 48)) acc := by
  induction l generalizing acc with
  | nil => rfl
  | cons c cs ih =>
    simp only [atoi_digits, List.takeWhile_cons]
    split_ifs with h
    · simp [ih]
    · rfl

theorem digit_fold_nonneg (l : List Char) (acc : Int) (hacc : 0 ≤ acc) :
    0 ≤ (l.takeWhile Char.isDigit).foldl (fun a c => a * 10 + ((c.toNat : Int) - 48)) acc := by
  induction l generalizing acc with
  | nil => simpa using hacc
  | cons c cs ih =>
    simp only [List.takeWhile_cons]
    split_ifs with h
    · simp only [List.foldl_cons]
      apply ih
      have h48 : 48 ≤ c.toNat := by
        simp only [Char.isDigit, Bool.and_eq_true, decide_eq_true_eq, ge_iff_le,
          UInt32.le_def, Fin.le_def] at h
        exact h.1
      omega
    · simpa using hacc

theorem extract_index_from_chars_eq (l : List Char) :
    extract_index_from_chars l =
      match l.dropWhile (fun c => !c.isDigit) with
      | [] => -1
      | c :: cs => to_int (strtol_clamp (atoi_digits (c :: cs) 0)) := by
  induction l with
  | nil => rfl
  | cons c cs ih =>
    simp only [extract_index_from_chars, not_digit_iff, List.dropWhile_cons]
    cases hc : c.isDigit with
    | true => simp [atoi_chars_digit c cs hc]
    | false => simpa using ih

theorem extract_index_no_digit (l : List Char) (h : ∀ c ∈ l, c.isDigit = false) :
    extract_index_from_chars l = -1 := by
  rw [extract_index_from_chars_eq]
  have : l.dropWhile (fun c => !c.isDigit) = [] := by
    rw [List.dropWhile_eq_nil_iff]
    intro c hc
    simp [h c hc]
  rw [this]

theorem extract_index_first_run (l : List Char) (h : l.any Char.isDigit = true) :
    extract_index_from_chars l =
        to_int (strtol_clamp
          (digits_value ((l.dropWhile (fun c => !c.isDigit)).takeWhile Char.isDigit))) ∧
      0 ≤ digits_value ((l.dropWhile (fun c => !c.isDigit)).takeWhile Char.isDigit) := by
  rw [extract_index_from_chars_eq]
  cases hd : l.dropWhile (fun c => !c.isDigit) with
  | nil =>
    exfalso
    rw [List.dropWhile_eq_nil_iff] at hd
    obtain ⟨c, hc, hcd⟩ := List.any_eq_true.mp h
    have := hd c hc
    simp [hcd] at this
  | cons c cs =>
    simp only []
    rw [atoi_digits_eq_fold]
    exact ⟨rfl, digit_fold_nonneg _ 0 (le_refl 0)⟩

theorem extract_index_first_run_int (l : List Char) (h : l.any Char.isDigit = true)
    (hfit : digits_value ((l.dropWhile (fun c => !c.isDigit)).takeWhile Char.isDigit) ≤
      2147483647) :
    extract_index_from_chars l =
        digits_value ((l.dropWhile (fun c => !c.isDigit)).takeWhile Char.isDigit) ∧
      0 ≤ extract_index_from_chars l := by
  obtain ⟨h1, h2⟩ := extract_index_first_run l h
  rw [h1, to_int_strtol_clamp _ ⟨by omega, hfit⟩]
  exact ⟨rfl, h2⟩

/-- C13 (counterexample). For the name `a1b2` the numeric suffix writes 2, and
`extract_index_from_name` returns 1, the number of the first run of digits. -/
theorem extract_index_not_suffix :
    extract_index_from_name "a1b2" = 1 ∧ digits_value (numeric_suffix "a1b2") = 2 ∧
      extract_index_from_name "a1b2" ≠ digits_value (numeric_suffix "a1b2") := by
  decide

/-- The example of the specification: the name `list3` selects slot 3. -/
theorem extract_index_list3 : extract_index_from_name "list3" = 3 := by
  decide

/-- The `int` of the code at numerals beyond `int`: the name `x4294967297`
selects slot 1, and the name `n99999999999999999999` gives -1 although it has
digits. -/
theorem extract_index_beyond_int :
    extract_index_from_name "x4294967297" = 1 ∧
      extract_index_from_name "n99999999999999999999" = -1 ∧
      has_digit "n99999999999999999999" = true := by
  decide

/-- C13 (amended). Slot selection by the first run of digits: for every
instance name with a digit, `extract_index_from_name` returns the `int` that
`atoi` makes of the number written by the maximal run of decimal digits that
starts at the first digit of the name; when that number fits an `int` (it is
at most 2147483647) the result is that number itself, and then the result is
-1 exactly when the name contains no digit; a name without a digit always
gives -1; and for a name made of non-digits followed by digits only, such as
`list3`, with a number that fits an `int`, the result is the number written
by the numeric suffix. -/
theorem extract_index_is_first_digit_run (name : String) :
    (has_digit name = true →
      extract_index_from_name name =
        to_int (strtol_clamp (digits_value (first_digit_run name)))) ∧
    (has_digit name = true → digits_value (first_digit_run name) ≤ 2147483647 →
      extract_index_from_name name = digits_value (first_digit_run name)) ∧
    (has_digit name = false → extract_index_from_name name = -1) ∧
    (digits_value (first_digit_run name) ≤ 2147483647 →
      (extract_index_from_name name = -1 ↔ has_digit name = false)) ∧
    (∀ pre ds : List Char, name.toList = pre ++ ds → (∀ c ∈ pre, c.isDigit = false) →
      (∀ c ∈ ds, c.isDigit = true) → ds ≠ [] → digits_value ds ≤ 2147483647 →
      extract_index_from_name name = digits_value (numeric_suffix name)) := by
  have hnone : has_digit name = false → extract_index_from_name name = -1 := by
    intro h
    apply extract_index_no_digit
    intro c hc
    cases hcd : c.isDigit with
    | false => rfl
    | true =>
      have : has_digit name = true := List.any_eq_true.mpr ⟨c, hc, hcd⟩
      rw [h] at this
      exact absurd this (by decide)
  refine ⟨fun h => (extract_index_first_run name.toList h).1,
    fun h hfit => (extract_index_first_run_int name.toList h hfit).1, hnone, ?_, ?_⟩
  · intro hfit
    constructor
    · intro h
      cases hd : has_digit name with
      | false => rfl
      | true =>
        have := (extract_index_first_run_int name.toList hd hfit).2
        unfold extract_index_from_name at h
        omega
    · exact hnone
  · intro pre ds hname hpre hds hne hfit
    obtain ⟨d, ds1, rfl⟩ := List.exists_cons_of_ne_nil hne
    have hd : d.isDigit = true := hds d (List.mem_cons_self _ _)
    have hany : name.toList.any Char.isDigit = true :=
      List.any_eq_true.mpr ⟨d, by rw [hname]; simp, hd⟩
    have h1 : (pre ++ d :: ds1).dropWhile (fun c => !c.isDigit) = d :: ds1 := by
      rw [List.dropWhile_append_of_pos (fun c hc => by simp [hpre c hc])]
      simp [List.dropWhile_cons, hd]
    have h2 : (d :: ds1).takeWhile Char.isDigit = d :: ds1 :=
      List.takeWhile_eq_self_iff.mpr hds
    have h3 : ((pre ++ d :: ds1).reverse.takeWhile Char.isDigit).reverse = d :: ds1 := by
      rw [List.reverse_append, List.takeWhile_append]
      have h4 : (d :: ds1).reverse.takeWhile Char.isDigit = (d :: ds1).reverse :=
        List.takeWhile_eq_self_iff.mpr (fun c hc => hds c (List.mem_reverse.mp hc))
      rw [h4, if_pos rfl]
      have h5 : pre.reverse.takeWhile Char.isDigit = [] := by
        cases hp : pre.reverse with
        | nil => rfl
        | cons x xs =>
          have hx : x ∈ pre := List.mem_reverse.mp (by rw [hp]; exact List.mem_cons_self _ _)
          simp [List.takeWhile_cons, hpre x hx]
      rw [h5]
      simp
    have hrun : (name.toList.dropWhile (fun c => !c.isDigit)).takeWhile Char.isDigit =
        d :: ds1 := by
      rw [hname, h1, h2]
    unfold extract_index_from_name
    rw [(extract_index_first_run_int name.toList hany (by rw [hrun]; exact hfit)).1, hrun]
    unfold numeric_suffix
    rw [hname, h3]

theorem bad_slot_name_index (name : String) (h : bad_slot_name name) :
    extract_index_from_name name < 0 ∨ extract_index_from_name name ≥ MAX_OBJECTS := by
  rcases h with h | h | h
  · left
    have : extract_index_from_name name = -1 := by
      apply extract_index_no_digit
      intro c hc
      cases hcd : c.isDigit with
      | false => rfl
      | true =>
        have : has_digit name = true := List.any_eq_true.mpr ⟨c, hc, hcd⟩
        rw [h] at this
        exact absurd this (by decide)
    omega
  · exact Or.inl h
  · exact Or.inr h

theorem process_create_bad_name (alloc : Bool) (st : Registry) (cmd_tokens : List String)
    (h : bad_slot_name (token cmd_tokens 2)) :
    process_create_command alloc st cmd_tokens = st := by
  have hb := bad_slot_name_index _ h
  simp only [process_create_command, init_list, init_hash_table, init_bitmap, hb, if_true]
  split_ifs <;> rfl

theorem process_delete_bad_name (st : Registry) (cmd_tokens : List String)
    (h : bad_slot_name (token cmd_tokens 1)) :
    process_delete_command st cmd_tokens = st := by
  have hb := bad_slot_name_index _ h
  simp only [process_delete_command, hb, if_true]
  split_ifs <;> rfl

theorem process_list_bad_name (env : Env) (st : Registry) (cmd_tokens : List String)
    (h : bad_slot_name (token cmd_tokens 1) ∨
      st.list_arr (extract_index_from_name (token cmd_tokens 1)).toNat = none) :
    process_list_command env st cmd_tokens = some st := by
  rcases h with h | h
  · have hb := bad_slot_name_index _ h
    simp only [process_list_command, hb, if_true]
    split_ifs <;> rfl
  · simp only [process_list_command, h]
    split_ifs <;> rfl

theorem process_hash_bad_name (hash_int : Int → Nat) (env : Env) (st : Registry)
    (cmd_tokens : List String)
    (h : bad_slot_name (token cmd_tokens 1) ∨
      st.hash_arr (extract_index_from_name (token cmd_tokens 1)).toNat = none) :
    process_hash_command hash_int env st cmd_tokens = some st := by
  rcases h with h | h
  · have hb := bad_slot_name_index _ h
    simp only [process_hash_command, hb, if_true]
    split_ifs <;> rfl
  · simp only [process_hash_command, h]
    split_ifs <;> rfl

theorem process_bitmap_bad_name (env : Env) (st : Registry) (cmd_tokens : List String)
    (h : bad_slot_name (token cmd_tokens 1) ∨
      st.bmp_arr (extract_index_from_name (token cmd_tokens 1)).toNat = none) :
    process_bitmap_command env st cmd_tokens = some st := by
  rcases h with h | h
  · have hb := bad_slot_name_index _ h
    simp only [process_bitmap_command, hb, if_true]
    split_ifs <;> rfl
  · simp only [process_bitmap_command, h]
    split_ifs <;> rfl

/-- C14. Bad slot names are ignored: a create or delete command whose instance
name (`cmd_tokens[2]` of create, `cmd_tokens[1]` of the others) contains no
digit or has its index outside `0..9`, and a `list_*`, `hash_*` or `bitmap_*`
command whose name is such or whose slot of the matching type is empty,
returns the state it was given: the three registry arrays and every container
in them are unchanged and nothing is printed. -/
theorem bad_slot_names_are_ignored (hash_int : Int → Nat) (env : Env) (st : Registry)
    (cmd_tokens : List String) :
    (bad_slot_name (token cmd_tokens 2) →
      process_create_command env.alloc st cmd_tokens = st) ∧
    (bad_slot_name (token cmd_tokens 1) → process_delete_command st cmd_tokens = st) ∧
    (bad_slot_name (token cmd_tokens 1) ∨
        st.list_arr (extract_index_from_name (token cmd_tokens 1)).toNat = none →
      process_list_command env st cmd_tokens = some st) ∧
    (bad_slot_name (token cmd_tokens 1) ∨
        st.hash_arr (extract_index_from_name (token cmd_tokens 1)).toNat = none →
      process_hash_command hash_int env st cmd_tokens = some st) ∧
    (bad_slot_name (token cmd_tokens 1) ∨
        st.bmp_arr (extract_index_from_name (token cmd_tokens 1)).toNat = none →
      process_bitmap_command env st cmd_tokens = some st) :=
  ⟨process_create_bad_name env.alloc st cmd_tokens, process_delete_bad_name st cmd_tokens,
    process_list_bad_name env st cmd_tokens, process_hash_bad_name hash_int env st cmd_tokens,
    process_bitmap_bad_name env st cmd_tokens⟩

/-- C15. `delete name` clears at most one container: for a name with index `i`
in `0..9` it empties the first non-empty one of `list_arr[i]`, `hash_arr[i]`,
`bmp_arr[i]`, in this order, leaves the two other entries at `i` as they
were, leaves every slot at another index as it was, and prints nothing. -/
theorem delete_clears_first_nonempty (st : Registry) (name : String)
    (hidx : 0 ≤ extract_index_from_name name ∧ extract_index_from_name name < MAX_OBJECTS) :
    (st.list_arr (extract_index_from_name name).toNat ≠ none →
      (process_delete_command st ["delete", name]).list_arr
          (extract_index_from_name name).toNat = none ∧
      (process_delete_command st ["delete", name]).hash_arr = st.hash_arr ∧
      (process_delete_command st ["delete", name]).bmp_arr = st.bmp_arr) ∧
    (st.list_arr (extract_index_from_name name).toNat = none →
      st.hash_arr (extract_index_from_name name).toNat ≠ none →
      (process_delete_command st ["delete", name]).hash_arr
          (extract_index_from_name name).toNat = none ∧
      (process_delete_command st ["delete", name]).list_arr = st.list_arr ∧
      (process_delete_command st ["delete", name]).bmp_arr = st.bmp_arr) ∧
    (st.list_arr (extract_index_from_name name).toNat = none →
      st.hash_arr (extract_index_from_name name).toNat = none →
      (process_delete_command st ["delete", name]).bmp_arr
          (extract_index_from_name name).toNat = none ∧
      (process_delete_command st ["delete", name]).list_arr = st.list_arr ∧
      (process_delete_command st ["delete", name]).hash_arr = st.hash_arr) ∧
    (∀ j, j ≠ (extract_index_from_name name).toNat →
      (process_delete_command st ["delete", name]).list_arr j = st.list_arr j ∧
      (process_delete_command st ["delete", name]).hash_arr j = st.hash_arr j ∧
      (process_delete_command st ["delete", name]).bmp_arr j = st.bmp_arr j) ∧
    (process_delete_command st ["delete", name]).stdout = st.stdout := by
  have h1 : ¬ (extract_index_from_name name < 0 ∨ extract_index_from_name name ≥ MAX_OBJECTS) := by
    omega
  have hdel : process_delete_command st ["delete", name] =
      if st.list_arr (extract_index_from_name name).toNat ≠ none then
        { st with list_arr := set_slot st.list_arr (extract_index_from_name name).toNat none }
      else if st.hash_arr (extract_index_from_name name).toNat ≠ none then
        { st with hash_arr := set_slot st.hash_arr (extract_index_from_name name).toNat none }
      else if st.bmp_arr (extract_index_from_name name).toNat ≠ none then
        { st with bmp_arr := set_slot st.bmp_arr (extract_index_from_name name).toNat none }
      else st := by
    simp [process_delete_command, token, h1]
  rw [hdel]
  refine ⟨?_, ?_, ?_, ?_, ?_⟩
  · intro hl
    rw [if_pos hl]
    exact ⟨set_slot_same _ _ _, rfl, rfl⟩
  · intro hl hh
    rw [if_neg (not_not.mpr hl), if_pos hh]
    exact ⟨set_slot_same _ _ _, rfl, rfl⟩
  · intro hl hh
    rw [if_neg (not_not.mpr hl), if_neg (not_not.mpr hh)]
    split_ifs with hb
    · exact ⟨set_slot_same _ _ _, rfl, rfl⟩
    · exact ⟨not_not.mp hb, rfl, rfl⟩
  · intro j hj
    split_ifs <;> simp [set_slot, hj]
  · split_ifs <;> rfl

/-- C15 (witness). `delete list0` on the example registry, whose slot 0 holds a
list. -/
theorem delete_clears_first_nonempty_witness :
    (example_registry.list_arr (extract_index_from_name "list0").toNat ≠ none →
      (process_delete_command example_registry ["delete", "list0"]).list_arr
          (extract_index_from_name "list0").toNat = none ∧
      (process_delete_command example_registry ["delete", "list0"]).hash_arr =
        example_registry.hash_arr ∧
      (process_delete_command example_registry ["delete", "list0"]).bmp_arr =
        example_registry.bmp_arr) ∧
    (example_registry.list_arr (extract_index_from_name "list0").toNat = none →
      example_registry.hash_arr (extract_index_from_name "list0").toNat ≠ none →
      (process_delete_command example_registry ["delete", "list0"]).hash_arr
          (extract_index_from_name "list0").toNat = none ∧
      (process_delete_command example_registry ["delete", "list0"]).list_arr =
        example_registry.list_arr ∧
      (process_delete_command example_registry ["delete", "list0"]).bmp_arr =
        example_registry.bmp_arr) ∧
    (example_registry.list_arr (extract_index_from_name "list0").toNat = none →
      example_registry.hash_arr (extract_index_from_name "list0").toNat = none →
      (process_delete_command example_registry ["delete", "list0"]).bmp_arr
          (extract_index_from_name "list0").toNat = none ∧
      (process_delete_command example_registry ["delete", "list0"]).list_arr =
        example_registry.list_arr ∧
      (process_delete_command example_registry ["delete", "list0"]).hash_arr =
        example_registry.hash_arr) ∧
    (∀ j, j ≠ (extract_index_from_name "list0").toNat →
      (process_delete_command example_registry ["delete", "list0"]).list_arr j =
        example_registry.list_arr j ∧
      (process_delete_command example_registry ["delete", "list0"]).hash_arr j =
        example_registry.hash_arr j ∧
      (process_delete_command example_registry ["delete", "list0"]).bmp_arr j =
        example_registry.bmp_arr j) ∧
    (process_delete_command example_registry ["delete", "list0"]).stdout =
      example_registry.stdout :=
  delete_clears_first_nonempty example_registry "list0" (by decide)

/-- C16. `list_splice` rejects positions that are not element indices: for two
existing lists (which may be one and the same), when `dest_position` is not in
`[0, size(dest))` or `src_start` or `src_end_exclusive` is not in
`[0, size(src))`, so also for `src_end_exclusive = size(src)` and for
`dest_position = size(dest)`, the command prints `Invalid position.` and a
newline and changes nothing else: both lists are as before. -/
theorem list_splice_rejects_bad_positions (env : Env) (dest src tp ts te : String)
    (st : Registry) (Y X : List list_node)
    (hd : 0 ≤ extract_index_from_name dest ∧ extract_index_from_name dest < MAX_OBJECTS)
    (hs : 0 ≤ extract_index_from_name src ∧ extract_index_from_name src < MAX_OBJECTS)
    (hY : st.list_arr (extract_index_from_name dest).toNat = some Y)
    (hX : st.list_arr (extract_index_from_name src).toNat = some X)
    (hbad : ¬ (0 ≤ atoi tp ∧ atoi tp < Y.length) ∨ ¬ (0 ≤ atoi ts ∧ atoi ts < X.length) ∨
      ¬ (0 ≤ atoi te ∧ atoi te < X.length)) :
    ∃ st1, process_list_command env st ["list_splice", dest, tp, src, ts, te] = some st1 ∧
      st1.stdout = st.stdout ++ "Invalid position.\n" ∧
      st1.list_arr = st.list_arr ∧ st1.hash_arr = st.hash_arr ∧ st1.bmp_arr = st.bmp_arr ∧
      st1.list_arr (extract_index_from_name dest).toNat = some Y ∧
      st1.list_arr (extract_index_from_name src).toNat = some X := by
  have h1 : ¬ (extract_index_from_name dest < 0 ∨ extract_index_from_name dest ≥ MAX_OBJECTS ∨
      extract_index_from_name src < 0 ∨ extract_index_from_name src ≥ MAX_OBJECTS) := by
    omega
  refine ⟨printf st "Invalid position.\n", ?_, rfl, rfl, rfl, rfl, hY, hX⟩
  rw [process_list_command_splice env dest src tp ts te st Y hd hY]
  simp only [process_list_splice, token, List.getD_cons_zero, List.getD_cons_succ, h1, if_false,
    hY, hX, get_nth_element_eq]
  rcases hbad with h | h | h
  · rw [if_neg h]
  · rw [if_neg h]
    split <;> first | rfl | simp_all
  · rw [if_neg h]
    split <;> first | rfl | simp_all

/-- C16 (witness). `list_splice list0 1 list1 0 3` on the lists `1 2 3` and
`4 5 6` of the example registry: the range runs to the end of the source. -/
theorem list_splice_rejects_bad_positions_witness :
    ∃ st1,
      process_list_command ⟨true, [], 0⟩ example_registry
          ["list_splice", "list0", "1", "list1", "0", "3"] = some st1 ∧
      st1.stdout = example_registry.stdout ++ "Invalid position.\n" ∧
      st1.list_arr = example_registry.list_arr ∧ st1.hash_arr = example_registry.hash_arr ∧
      st1.bmp_arr = example_registry.bmp_arr ∧
      st1.list_arr (extract_index_from_name "list0").toNat = some [⟨10, 1⟩, ⟨11, 2⟩, ⟨12, 3⟩] ∧
      st1.list_arr (extract_index_from_name "list1").toNat = some [⟨20, 4⟩, ⟨21, 5⟩, ⟨22, 6⟩] :=
  list_splice_rejects_bad_positions ⟨true, [], 0⟩ "list0" "list1" "1" "0" "3" example_registry
    [⟨10, 1⟩, ⟨11, 2⟩, ⟨12, 3⟩] [⟨20, 4⟩, ⟨21, 5⟩, ⟨22, 6⟩] (by decide) (by decide) (by decide) (by decide) (by decide)

/-- Numerals beyond `int`: `atoi` reads `4294967296` as 0, `3000000000` as
-1294967296, `2147483648` as -2147483648 and `99999999999999999999` as -1. -/
theorem atoi_beyond_int :
    atoi "4294967296" = 0 ∧ atoi "3000000000" = -1294967296 ∧
      atoi "2147483648" = -2147483648 ∧ atoi "99999999999999999999" = -1 := by
  decide

/-- The name `list4294967296` selects slot 0: it is no bad slot name, after
`create hashtable h0` the command `create list list4294967296` is no create on
a free index, and it puts an empty list beside the table of slot 0. -/
theorem create_beyond_int_index :
    ¬ bad_slot_name "list4294967296" ∧
      ¬ create_target_free
        (process_create_command true init_registry ["create", "hashtable", "h0"])
        ["create", "list", "list4294967296"] ∧
      (process_create_command true
        (process_create_command true init_registry ["create", "hashtable", "h0"])
        ["create", "list", "list4294967296"]).list_arr 0 = some [] := by
  refine ⟨?_, ?_, ?_⟩
  · unfold bad_slot_name
    decide
  · unfold create_target_free
    decide
  · decide

/-- The position `4294967296` is the `int` 0: `list_splice list0 4294967296
list1 0 2` on the lists `1 2 3` and `4 5 6` moves `4 5` to the front of the
first list and prints nothing. -/
theorem splice_beyond_int_position :
    (process_list_command ⟨true, [], 0⟩ example_registry
        ["list_splice", "list0", "4294967296", "list1", "0", "2"]).map
      (fun st1 => (st1.list_arr 0, st1.list_arr 1, st1.stdout)) =
      some (some [⟨20, 4⟩, ⟨21, 5⟩, ⟨10, 1⟩, ⟨11, 2⟩, ⟨12, 3⟩], some [⟨22, 6⟩], "") := by
  decide

/-- Arguments beyond `int` in the list commands: `list_insert list0 4294967296
9` on `1 2 3` inserts at the front, and the push of `3000000000` stores
-1294967296. -/
theorem list_arguments_beyond_int :
    (process_list_command ⟨true, [], 50⟩ example_registry
        ["list_insert", "list0", "4294967296", "9"]).map
      (fun st1 => (process_dumpdata_command st1 ["dumpdata", "list0"]).stdout) =
      some "9 1 2 3\n" ∧
    (process_list_command ⟨true, [], 50⟩ example_registry
        ["list_push_back", "list0", "3000000000"]).map
      (fun st1 => (process_dumpdata_command st1 ["dumpdata", "list0"]).stdout) =
      some "1 2 3 -1294967296\n" := by
  decide

end Cse4100
